import Mathlib

/-!
# gke-target-pool-sync: a shallow embedding of `main.go`

The program polls a cluster's node pools and makes sure that every managed
instance group behind them lists one given target pool.  This file embeds

* the string arithmetic of `main.go` (`strings.LastIndex` on a one-byte
  separator and the two slice expressions built on it),
* `doUpdate` (one reconciliation cycle) as a state-passing function over an
  arbitrary control plane, recording every control-plane call with its
  response and every log line,
* the flag validation at the top of `main`,

and proves the properties of the specification about them.

Conventions.  A Go `string` is a sequence of bytes (`List UInt8`).  A Go `error`
value is an opaque payload (`Err`).  A run-time panic and `log.Fatal` (which
exits the process) are explicit results.  The control plane is a deterministic
state machine over an arbitrary state type: every call may change the state, so
out-of-band changes and arbitrary failures are covered by quantifying over it.
-/

namespace TargetPoolSync

/-! ## Go strings -/

/-- A Go string: an immutable sequence of bytes. -/
abbrev GoString := List UInt8

/-- The bytes of a string literal (its UTF-8 encoding), as Go stores it. -/
def utf8 (s : String) : GoString := s.data.flatMap String.utf8EncodeChar

/-- The byte of the path separator "/". -/
def slash : UInt8 := 47

/-- The byte of the hyphen "-". -/
def hyphen : UInt8 := 45

/-- The scan of `strings.LastIndex` for a one-byte separator: indices
`n-1, n-2, ..., 0` are tried in this order and the first hit is returned; `-1`
when there is none. -/
def lastIndexFrom (s : GoString) (c : UInt8) : Nat → Int
  | 0 => -1
  | i + 1 => if s[i]? = some c then (i : Int) else lastIndexFrom s c i

/-- The call `strings.LastIndex(s, sep)` for a separator `sep` of one byte `c`:
the index of the last occurrence of `c` in `s`, or `-1`. -/
def lastIndex (s : GoString) (c : UInt8) : Int := lastIndexFrom s c s.length

/-- A Go run-time panic.  The only one this program can raise is a slice
expression whose bound is out of range. -/
inductive Panic where
  | sliceBounds (index : Int) (length : Nat)
  deriving DecidableEq, Repr

/-- The value of an expression that may panic. -/
inductive Checked (α : Type) where
  | ok (value : α)
  | panicked (p : Panic)
  deriving DecidableEq, Repr

/-- The slice expression `s[lo:]`: defined when `0 ≤ lo ≤ len(s)`, a panic
otherwise. -/
def sliceFrom (s : GoString) (lo : Int) : Checked GoString :=
  if 0 ≤ lo ∧ lo ≤ (s.length : Int) then .ok (s.drop lo.toNat)
  else .panicked (.sliceBounds lo s.length)

/-- The slice expression `s[:hi]`: defined when `0 ≤ hi ≤ len(s)`, a panic
otherwise. -/
def sliceTo (s : GoString) (hi : Int) : Checked GoString :=
  if 0 ≤ hi ∧ hi ≤ (s.length : Int) then .ok (s.take hi.toNat)
  else .panicked (.sliceBounds hi s.length)

/-- Line 60: `instanceGroupURL[strings.LastIndex(instanceGroupURL, "/")+1:]`. -/
def instanceGroupName (instanceGroupURL : GoString) : Checked GoString :=
  sliceFrom instanceGroupURL (lastIndex instanceGroupURL slash + 1)

/-- Line 141: `config.zone[:strings.LastIndex(config.zone, "-")]`. -/
def inferRegion (zone : GoString) : Checked GoString :=
  sliceTo zone (lastIndex zone hyphen)

/-! ## Data model -/

/-- The struct `configData`. -/
structure configData where
  projectID : GoString
  region : GoString
  zone : GoString
  clusterID : GoString
  targetPoolID : GoString
  deriving DecidableEq, Repr

/-- A Go `error` value returned by a client call. -/
structure Err where
  msg : GoString
  deriving DecidableEq, Repr

/-- The fields of `container.NodePool` that `doUpdate` reads. -/
structure NodePool where
  name : GoString
  instanceGroupUrls : List GoString
  deriving DecidableEq, Repr

/-- The fields of `compute.Operation` that `doUpdate` reads: `Error` (a nil
pointer, or a struct whose `Errors` list is logged) and `Warnings`. -/
structure Operation where
  error : Option (List GoString)
  warnings : List GoString
  deriving DecidableEq, Repr

/-- The response of a client call: a value, or an error. -/
inductive Resp (α : Type) where
  | ok (value : α)
  | error (err : Err)
  deriving DecidableEq, Repr

/-- The control plane, as `doUpdate` sees it through the two generated clients.
`containerNew` and `computeNew` are the results of `container.New(client)` and
`compute.New(client)`.  Each of the four calls takes the current state of the
world and returns the next state together with the response; for the read calls
the response carries only the field that `doUpdate` uses (`NodePools`,
`SelfLink`, `TargetPools`). -/
structure Backend (σ : Type) where
  containerNew : Resp Unit
  computeNew : Resp Unit
  nodePoolsList : GoString → GoString → GoString → σ → σ × Resp (List NodePool)
  targetPoolsGet : GoString → GoString → GoString → σ → σ × Resp GoString
  instanceGroupManagersGet : GoString → GoString → GoString → σ → σ × Resp (List GoString)
  setTargetPools : GoString → GoString → GoString → List GoString → σ → σ × Resp Operation

/-- A control-plane call issued by `doUpdate`, with its arguments and the
response it received. -/
inductive Event where
  | nodePoolsList (project zone cluster : GoString) (resp : Resp (List NodePool))
  | targetPoolsGet (project region targetPool : GoString) (resp : Resp GoString)
  | instanceGroupManagersGet (project zone name : GoString) (resp : Resp (List GoString))
  | setTargetPools (project zone name : GoString) (targetPools : List GoString)
      (resp : Resp Operation)
  deriving DecidableEq, Repr

/-- A logrus level used by the program. -/
inductive Level where
  | trace | debug | info | warn | error
  deriving DecidableEq, Repr

/-- What a log line says. -/
inductive LogMsg where
  | text (s : String)
  | processing (instanceGroupName : GoString)
  | err (e : Err)
  | newPools (pools : List GoString)
  | operationErrors (errors : List GoString)
  | warnings (ws : List GoString)
  deriving DecidableEq, Repr

/-- A log line: level, the fields of the logger it was written through, and the
message. -/
structure LogEntry where
  level : Level
  fields : List (String × GoString)
  msg : LogMsg
  deriving DecidableEq, Repr

/-- How a piece of `doUpdate` ends: it runs to its end (for `doUpdate` itself:
`return nil`), it executes `return err`, or it panics. -/
inductive Flow where
  | done
  | returned (err : Err)
  | panicked (p : Panic)
  deriving DecidableEq, Repr

/-- The observable result of running a piece of `doUpdate`: how it ended, the
state of the control plane afterwards, the calls issued and the lines logged,
both in order. -/
structure Run (σ : Type) where
  flow : Flow
  state : σ
  calls : List Event
  log : List LogEntry

/-- Sequencing: the continuation runs only when the first piece ran to its
end. -/
def Run.andThen {σ : Type} (r : Run σ) (k : σ → Run σ) : Run σ :=
  match r.flow with
  | .done =>
    { flow := (k r.state).flow, state := (k r.state).state,
      calls := r.calls ++ (k r.state).calls, log := r.log ++ (k r.state).log }
  | _ => r

/-! ## `doUpdate` -/

/-- Lines 74-80: the scan of the existing target pools for the desired one. -/
def hasPool (targetPoolURL : GoString) : List GoString → Bool
  | [] => false
  | existingTargetPool :: rest =>
    if existingTargetPool = targetPoolURL then true else hasPool targetPoolURL rest

/-- Lines 99-104: what is logged about the response of a successful
`SetTargetPools` call. -/
def logOperation (fields : List (String × GoString)) (op : Operation) : List LogEntry :=
  (match op.error with
    | some errors => [{ level := .error, fields := fields, msg := .operationErrors errors }]
    | none => []) ++
  (if op.warnings.length > 0 then
    [{ level := .warn, fields := fields, msg := .warnings op.warnings }] else [])

/-- Lines 60-104: the body of the inner loop, for one instance-group URL of the
node pool named `nodePoolName`. -/
def processInstanceGroup {σ : Type} (b : Backend σ) (config : configData)
    (targetPoolURL nodePoolName instanceGroupURL : GoString) (s : σ) : Run σ :=
  match instanceGroupName instanceGroupURL with
  | .panicked p => { flow := .panicked p, state := s, calls := [], log := [] }
  | .ok name =>
    let fields := [("nodePool", nodePoolName), ("instanceGroup", name)]
    let log0 : List LogEntry :=
      [{ level := .info, fields := fields, msg := .processing name },
       { level := .trace, fields := fields, msg := .text "Read InstanceGroupManager" }]
    let got := b.instanceGroupManagersGet config.projectID config.zone name s
    let getCall := Event.instanceGroupManagersGet config.projectID config.zone name got.2
    match got.2 with
    | .error err =>
      { flow := .returned err, state := got.1, calls := [getCall],
        log := log0 ++ [{ level := .error, fields := fields, msg := .err err }] }
    | .ok existingTargetPools =>
      if hasPool targetPoolURL existingTargetPools then
        { flow := .done, state := got.1, calls := [getCall],
          log := log0 ++ [{ level := .debug, fields := fields,
                            msg := .text "InstanceGroupManager already has TargetPool" }] }
      else
        let newTargetPools := existingTargetPools ++ [targetPoolURL]
        let log1 : List LogEntry := log0 ++
          [{ level := .debug, fields := fields, msg := .newPools newTargetPools },
           { level := .info, fields := fields,
             msg := .text "Updating InstanceGroupManager TargetPools" },
           { level := .trace, fields := fields, msg := .text "SetTargetPools" }]
        let set := b.setTargetPools config.projectID config.zone name newTargetPools got.1
        let setCall :=
          Event.setTargetPools config.projectID config.zone name newTargetPools set.2
        match set.2 with
        | .error err =>
          { flow := .returned err, state := set.1, calls := [getCall, setCall],
            log := log1 ++ [{ level := .error, fields := fields, msg := .err err }] }
        | .ok op =>
          { flow := .done, state := set.1, calls := [getCall, setCall],
            log := log1 ++ logOperation fields op }

/-- Lines 59-105: the inner loop over `nodePool.InstanceGroupUrls`. -/
def instanceGroupLoop {σ : Type} (b : Backend σ) (config : configData)
    (targetPoolURL nodePoolName : GoString) : List GoString → σ → Run σ
  | [], s => { flow := .done, state := s, calls := [], log := [] }
  | instanceGroupURL :: rest, s =>
    (processInstanceGroup b config targetPoolURL nodePoolName instanceGroupURL s).andThen
      (instanceGroupLoop b config targetPoolURL nodePoolName rest)

/-- Lines 55-106: the outer loop over `nodePoolsResp.NodePools`. -/
def nodePoolLoop {σ : Type} (b : Backend σ) (config : configData)
    (targetPoolURL : GoString) : List NodePool → σ → Run σ
  | [], s => { flow := .done, state := s, calls := [], log := [] }
  | nodePool :: rest, s =>
    (instanceGroupLoop b config targetPoolURL nodePool.name nodePool.instanceGroupUrls s).andThen
      (nodePoolLoop b config targetPoolURL rest)

/-- Lines 24-109: one reconciliation cycle, started in state `s` of the control
plane. -/
def doUpdate {σ : Type} (b : Backend σ) (config : configData) (s : σ) : Run σ :=
  let log0 : List LogEntry := [{ level := .info, fields := [], msg := .text "Running update" }]
  match b.containerNew with
  | .error err =>
    { flow := .returned err, state := s, calls := [],
      log := log0 ++ [{ level := .error, fields := [], msg := .err err }] }
  | .ok _ =>
    match b.computeNew with
    | .error err =>
      { flow := .returned err, state := s, calls := [],
        log := log0 ++ [{ level := .error, fields := [], msg := .err err }] }
    | .ok _ =>
      let log1 := log0 ++ [{ level := .trace, fields := [], msg := .text "Listing NodePools" }]
      let listed := b.nodePoolsList config.projectID config.zone config.clusterID s
      let listCall :=
        Event.nodePoolsList config.projectID config.zone config.clusterID listed.2
      match listed.2 with
      | .error err =>
        { flow := .returned err, state := listed.1, calls := [listCall],
          log := log1 ++ [{ level := .error, fields := [], msg := .err err }] }
      | .ok nodePools =>
        let log2 := log1 ++
          [{ level := .trace, fields := [], msg := .text "Getting TargetPool self link" }]
        let pool := b.targetPoolsGet config.projectID config.region config.targetPoolID listed.1
        let poolCall :=
          Event.targetPoolsGet config.projectID config.region config.targetPoolID pool.2
        match pool.2 with
        | .error err =>
          { flow := .returned err, state := pool.1, calls := [listCall, poolCall],
            log := log2 ++ [{ level := .error, fields := [], msg := .err err }] }
        | .ok targetPoolURL =>
          let r := nodePoolLoop b config targetPoolURL nodePools pool.1
          { flow := r.flow, state := r.state, calls := [listCall, poolCall] ++ r.calls,
            log := log2 ++ r.log }

/-! ## The start of `main` -/

/-- How the part of `main` before the call of `run` ends: `log.Fatal` (the line
is logged and the process exits with status 1), a panic, or the call
`run(ctx, config)` with the final configuration. -/
inductive Startup where
  | fatal (msg : String)
  | panicked (p : Panic)
  | run (config : configData)
  deriving DecidableEq, Repr

/-- Lines 144-153 of `main`: the last two checks and the call of `run`. -/
def mainTail (config : configData) : Startup :=
  if config.clusterID = [] then .fatal "Cluster name required"
  else if config.targetPoolID = [] then .fatal "Target pool name required"
  else .run config

/-- Lines 134-153 of `main`, from the parsed flags to the call of `run`.  The
warning logged at line 142 is not recorded. -/
def main (config : configData) : Startup :=
  if config.projectID = [] then .fatal "Project name required"
  else if config.zone = [] then .fatal "Zone required"
  else if config.region = [] then
    match inferRegion config.zone with
    | .panicked p => .panicked p
    | .ok region => mainTail { config with region := region }
  else mainTail config


/-! ## Definitions used in the statements -/

/-- The short name of an instance-group URL: the value of `instanceGroupName`
(the empty string stands in for a panic, which cannot happen). -/
def shortName (instanceGroupURL : GoString) : GoString :=
  match instanceGroupName instanceGroupURL with
  | .ok name => name
  | .panicked _ => []

/-- The instance groups of a topology in the order `doUpdate` visits them: node
pools in the order listed, and within a node pool its URLs in the order listed;
each URL comes with the name of its node pool. -/
def groupsInOrder (nodePools : List NodePool) : List (GoString × GoString) :=
  nodePools.flatMap (fun nodePool => nodePool.instanceGroupUrls.map (fun u => (nodePool.name, u)))

/-- The loop body run over a sequence of (node pool name, URL) pairs in turn,
stopping at the first one that does not run to its end. -/
def groupLoop {σ : Type} (b : Backend σ) (config : configData) (targetPoolURL : GoString) :
    List (GoString × GoString) → σ → Run σ
  | [], s => { flow := .done, state := s, calls := [], log := [] }
  | g :: rest, s =>
    (processInstanceGroup b config targetPoolURL g.1 g.2 s).andThen
      (groupLoop b config targetPoolURL rest)

/-- The shape of the calls of a run over a sequence of instance groups, for the
project `p`, the zone `z` and the desired target pool `t`, together with the way
the run ends: each group contributes a failed read (the last call), a read that
finds `t` and nothing else, or a read that does not find `t` followed by the
write of the list read with `t` appended (the last call when it fails). -/
inductive GroupCalls (p z t : GoString) : Flow → List Event → Prop where
  | nil : GroupCalls p z t .done []
  | readFailed (name : GoString) (e : Err) :
      GroupCalls p z t (.returned e) [.instanceGroupManagersGet p z name (.error e)]
  | present (name : GoString) (pools : List GoString) (f : Flow) (rest : List Event) :
      t ∈ pools → GroupCalls p z t f rest →
      GroupCalls p z t f (.instanceGroupManagersGet p z name (.ok pools) :: rest)
  | writeFailed (name : GoString) (pools : List GoString) (e : Err) :
      t ∉ pools →
      GroupCalls p z t (.returned e)
        [.instanceGroupManagersGet p z name (.ok pools),
         .setTargetPools p z name (pools ++ [t]) (.error e)]
  | written (name : GoString) (pools : List GoString) (op : Operation) (f : Flow)
      (rest : List Event) :
      t ∉ pools → GroupCalls p z t f rest →
      GroupCalls p z t f
        (.instanceGroupManagersGet p z name (.ok pools) ::
         .setTargetPools p z name (pools ++ [t]) (.ok op) :: rest)

/-- A control plane without state, whose responses are fixed: the listing, the
target pool, and for each instance-group name the response of a read and of a
write. -/
def fixedBackend (listing : Resp (List NodePool)) (pool : Resp GoString)
    (read : GoString → Resp (List GoString))
    (write : GoString → List GoString → Resp Operation) : Backend Unit where
  containerNew := .ok ()
  computeNew := .ok ()
  nodePoolsList _ _ _ s := (s, listing)
  targetPoolsGet _ _ _ s := (s, pool)
  instanceGroupManagersGet _ _ name s := (s, read name)
  setTargetPools _ _ name pools s := (s, write name pools)

/-- The configuration used in the examples. -/
def exampleConfig : configData :=
  { projectID := utf8 "proj", region := utf8 "us-central1", zone := utf8 "us-central1-a",
    clusterID := utf8 "cluster", targetPoolID := utf8 "pool" }

/-- The topology used in the examples: two node pools with three instance groups
in all. -/
def exampleNodePools : List NodePool :=
  [{ name := utf8 "pool-1", instanceGroupUrls := [utf8 "zones/a/g1", utf8 "zones/a/g2"] },
   { name := utf8 "pool-2", instanceGroupUrls := [utf8 "zones/a/g3"] }]

/-- A response without error payload and without warnings. -/
def cleanOperation : Operation := { error := none, warnings := [] }

/-- The control plane of the examples: every group lists the one pool
"poolA", the target pool resolves to "poolX", every call succeeds. -/
def exampleBackend : Backend Unit :=
  fixedBackend (.ok exampleNodePools) (.ok (utf8 "poolX")) (fun _ => .ok [utf8 "poolA"])
    (fun _ _ => .ok cleanOperation)

/-- The group name a read is addressed to; `none` for every other call. -/
def Event.readName : Event → Option GoString
  | .instanceGroupManagersGet _ _ name _ => some name
  | _ => none

/-- Whether a call is a `SetTargetPools`. -/
def Event.isSetTargetPools : Event → Bool
  | .setTargetPools _ _ _ _ _ => true
  | _ => false

/-- A call with the payload of a successful write response replaced by the clean
one. -/
def Event.erasePayload : Event → Event
  | .setTargetPools p z n tps (.ok _) => .setTargetPools p z n tps (.ok cleanOperation)
  | ev => ev

/-- Whether a log line reports the payload of a write response (lines 100 and
103). -/
def LogEntry.isPayloadLine (l : LogEntry) : Bool :=
  match l.msg with
  | .operationErrors _ => true
  | .warnings _ => true
  | _ => false

/-- The same control plane, except that every successful write response carries
no error payload and no warnings. -/
def Backend.withCleanResponses {σ : Type} (b : Backend σ) : Backend σ :=
  { b with
    setTargetPools := fun p z n tps s =>
      ((b.setTargetPools p z n tps s).1,
       match (b.setTargetPools p z n tps s).2 with
       | .ok _ => .ok cleanOperation
       | .error e => .error e) }

/-- The run `rc` is the run `r` with the response payloads taken away: same
end, same state, same calls up to the payloads, and the same log lines except
those that report a payload. -/
def Run.SameUpToPayload {σ : Type} (r rc : Run σ) : Prop :=
  rc.flow = r.flow ∧ rc.state = r.state ∧ rc.calls = r.calls.map Event.erasePayload ∧
  rc.log = r.log.filter (fun l => !l.isPayloadLine)

/-- The backend `b2` answers as `b` does wherever an instance-group call of `b`
succeeds: `b2` is `b` with some of its failures replaced by anything else. -/
def Backend.AgreesOnSuccess {σ : Type} (b2 b : Backend σ) : Prop :=
  (∀ p z n s pools, (b.instanceGroupManagersGet p z n s).2 = .ok pools →
    b2.instanceGroupManagersGet p z n s = b.instanceGroupManagersGet p z n s) ∧
  (∀ p z n tps s op, (b.setTargetPools p z n tps s).2 = .ok op →
    b2.setTargetPools p z n tps s = b.setTargetPools p z n tps s)

/-- The stored membership: the target-pool list of each instance group, keyed by
project, zone and group name. -/
abbrev Store := GoString × GoString × GoString → List GoString

/-- A control plane that is changed only by the writes of the cycle and whose
calls all succeed: the topology and the target pool are fixed, a read returns
the stored list of the addressed group, a write replaces it. -/
def storeBackend (nodePools : List NodePool) (targetPoolURL : GoString)
    (response : GoString → List GoString → Operation) : Backend Store where
  containerNew := .ok ()
  computeNew := .ok ()
  nodePoolsList _ _ _ s := (s, .ok nodePools)
  targetPoolsGet _ _ _ s := (s, .ok targetPoolURL)
  instanceGroupManagersGet p z name s := (s, .ok (s (p, z, name)))
  setTargetPools p z name pools s := (Function.update s (p, z, name) pools, .ok (response name pools))

/-- The control plane of the examples with a read of "g2" that fails. -/
def failingBackend : Backend Unit :=
  fixedBackend (.ok exampleNodePools) (.ok (utf8 "poolX"))
    (fun name => if name = utf8 "g2" then .error ⟨utf8 "not found"⟩ else .ok [utf8 "poolA"])
    (fun _ _ => .ok cleanOperation)

/-- A membership state for the examples: "g1" lists "poolA", "g2" lists the
target pool already, every other group lists nothing. -/
def exampleStore : Store := fun k =>
  if k.2.2 = utf8 "g1" then [utf8 "poolA"]
  else if k.2.2 = utf8 "g2" then [utf8 "poolA", utf8 "poolX"]
  else []

/-! ## Strings -/

theorem lastIndexFrom_spec (s : GoString) (c : UInt8) (n : Nat) :
    (lastIndexFrom s c n = -1 ∧ ∀ i, i < n → s[i]? ≠ some c) ∨
    (∃ k : Nat, k < n ∧ lastIndexFrom s c n = (k : Int) ∧ s[k]? = some c ∧
      ∀ j, k < j → j < n → s[j]? ≠ some c) := by
  induction n with
  | zero => left; exact ⟨rfl, fun i hi => absurd hi (Nat.not_lt_zero i)⟩
  | succ m ih =>
    unfold lastIndexFrom
    by_cases h : s[m]? = some c
    · right
      refine ⟨m, Nat.lt_succ_self m, by simp [h], h, ?_⟩
      intro j hj hj2
      omega
    · rcases ih with ⟨h1, h2⟩ | ⟨k, hk, h1, h2, h3⟩
      · left
        refine ⟨by simp [h, h1], ?_⟩
        intro i hi
        rcases Nat.lt_succ_iff_lt_or_eq.mp hi with hlt | heq
        · exact h2 i hlt
        · subst heq; exact h
      · right
        refine ⟨k, Nat.lt_succ_of_lt hk, by simp [h, h1], h2, ?_⟩
        intro j hj hj2
        rcases Nat.lt_succ_iff_lt_or_eq.mp hj2 with hlt | heq
        · exact h3 j hj hlt
        · subst heq; exact h

theorem not_mem_of_getElem?_ne (s : GoString) (c : UInt8)
    (h : ∀ i, i < s.length → s[i]? ≠ some c) : c ∉ s := by
  intro hc
  obtain ⟨i, hi, hget⟩ := List.getElem_of_mem hc
  exact h i hi (by rw [List.getElem?_eq_getElem hi, hget])

theorem lastIndex_spec (s : GoString) (c : UInt8) :
    (lastIndex s c = -1 ∧ c ∉ s) ∨
    (∃ k : Nat, k < s.length ∧ lastIndex s c = (k : Int) ∧
      s = s.take k ++ c :: s.drop (k + 1) ∧ c ∉ s.drop (k + 1)) := by
  unfold lastIndex
  rcases lastIndexFrom_spec s c s.length with ⟨h1, h2⟩ | ⟨k, hk, h1, h2, h3⟩
  · left; exact ⟨h1, not_mem_of_getElem?_ne s c h2⟩
  · right
    refine ⟨k, hk, h1, ?_, ?_⟩
    · have hd : s.drop k = c :: s.drop (k + 1) := by
        rw [List.drop_eq_getElem_cons hk]
        rw [List.getElem?_eq_getElem hk] at h2
        simp only [Option.some.injEq] at h2
        rw [h2]
      calc s = s.take k ++ s.drop k := (List.take_append_drop k s).symm
        _ = s.take k ++ c :: s.drop (k + 1) := by rw [hd]
    · apply not_mem_of_getElem?_ne
      intro i hi
      rw [List.length_drop] at hi
      rw [List.getElem?_drop]
      exact h3 (k + 1 + i) (by omega) (by omega)

theorem split_last_unique (p q r t : GoString) (c : UInt8)
    (hr : c ∉ r) (ht : c ∉ t) (h : p ++ c :: r = q ++ c :: t) : p = q ∧ r = t := by
  induction p generalizing q with
  | nil =>
    cases q with
    | nil => simpa using h
    | cons x q =>
      simp only [List.nil_append, List.cons_append, List.cons.injEq] at h
      exact absurd (h.2 ▸ List.mem_append_right q (List.mem_cons_self c t)) hr
  | cons y p ih =>
    cases q with
    | nil =>
      simp only [List.nil_append, List.cons_append, List.cons.injEq] at h
      exact absurd (h.2.symm ▸ List.mem_append_right p (List.mem_cons_self c r)) ht
    | cons x q =>
      simp only [List.cons_append, List.cons.injEq] at h
      obtain ⟨h1, h2⟩ := ih q h.2
      exact ⟨by rw [h.1, h1], h2⟩

theorem instanceGroupName_eq (u : GoString) :
    instanceGroupName u = .ok (u.drop (lastIndex u slash + 1).toNat) := by
  unfold instanceGroupName sliceFrom
  rcases lastIndex_spec u slash with ⟨h1, _⟩ | ⟨k, hk, h1, _, _⟩
  · rw [h1]; simp
  · rw [h1]
    have : (0 : Int) ≤ (k : Int) + 1 ∧ (k : Int) + 1 ≤ (u.length : Int) := by omega
    simp [this]

theorem instanceGroupName_shortName (u : GoString) :
    instanceGroupName u = .ok (shortName u) := by
  unfold shortName
  rw [instanceGroupName_eq]

theorem shortName_spec (u : GoString) :
    slash ∉ shortName u ∧ (slash ∈ u → ∃ p, u = p ++ slash :: shortName u) ∧
    (slash ∉ u → shortName u = u) := by
  have hn : shortName u = u.drop (lastIndex u slash + 1).toNat := by
    unfold shortName; rw [instanceGroupName_eq]
  rw [hn]
  rcases lastIndex_spec u slash with ⟨h1, h2⟩ | ⟨k, hk, h1, h2, h3⟩
  · rw [h1]
    have h0 : ((-1 : Int) + 1).toNat = 0 := rfl
    rw [h0, List.drop_zero]
    exact ⟨h2, fun h => absurd h h2, fun _ => rfl⟩
  · rw [h1]
    have : ((k : Int) + 1).toNat = k + 1 := by omega
    rw [this]
    refine ⟨h3, fun _ => ⟨u.take k, h2⟩, fun h => ?_⟩
    exact absurd (h2 ▸ List.mem_append_right _ (List.mem_cons_self _ _)) h

theorem inferRegion_spec (zone : GoString) :
    (hyphen ∈ zone → ∃ region s, inferRegion zone = .ok region ∧
      zone = region ++ hyphen :: s ∧ hyphen ∉ s) ∧
    (hyphen ∉ zone → inferRegion zone = .panicked (.sliceBounds (-1) zone.length)) := by
  unfold inferRegion sliceTo
  rcases lastIndex_spec zone hyphen with ⟨h1, h2⟩ | ⟨k, hk, h1, h2, h3⟩
  · rw [h1]
    exact ⟨fun h => absurd h h2, fun _ => by simp⟩
  · rw [h1]
    have hb : (0 : Int) ≤ (k : Int) ∧ (k : Int) ≤ (zone.length : Int) := by omega
    refine ⟨fun _ => ⟨zone.take k, zone.drop (k + 1), by simp [hb], h2, h3⟩, fun h => ?_⟩
    exact absurd (h2 ▸ List.mem_append_right _ (List.mem_cons_self _ _)) h


/-! ## Sequencing -/

theorem Run.andThen_done {σ : Type} (r : Run σ) (k : σ → Run σ) (h : r.flow = .done) :
    r.andThen k = { flow := (k r.state).flow, state := (k r.state).state,
                    calls := r.calls ++ (k r.state).calls, log := r.log ++ (k r.state).log } := by
  unfold Run.andThen
  rw [h]

theorem Run.andThen_stop {σ : Type} (r : Run σ) (k : σ → Run σ) (h : r.flow ≠ .done) :
    r.andThen k = r := by
  unfold Run.andThen
  split
  · next h2 => exact absurd h2 h
  · rfl

theorem Run.andThen_assoc {σ : Type} (r : Run σ) (k k2 : σ → Run σ) :
    (r.andThen k).andThen k2 = r.andThen (fun s => (k s).andThen k2) := by
  by_cases h : r.flow = .done
  · rw [Run.andThen_done r k h, Run.andThen_done r _ h]
    by_cases h2 : (k r.state).flow = .done
    · rw [Run.andThen_done _ k2 (by simpa using h2), Run.andThen_done (k r.state) k2 h2]
      simp [List.append_assoc]
    · rw [Run.andThen_stop _ k2 (by simpa using h2), Run.andThen_stop (k r.state) k2 h2]
  · rw [Run.andThen_stop r k h, Run.andThen_stop r k2 h, Run.andThen_stop r _ h]

theorem groupLoop_nil_andThen {σ : Type} (s : σ) (k : σ → Run σ) :
    (Run.mk Flow.done s [] []).andThen k = k s := by
  rw [Run.andThen_done _ _ rfl]
  simp

theorem groupLoop_append {σ : Type} (b : Backend σ) (config : configData) (t : GoString)
    (xs ys : List (GoString × GoString)) (s : σ) :
    groupLoop b config t (xs ++ ys) s =
      (groupLoop b config t xs s).andThen (groupLoop b config t ys) := by
  induction xs generalizing s with
  | nil => simp only [List.nil_append, groupLoop]; rw [groupLoop_nil_andThen]
  | cons g rest ih =>
    simp only [List.cons_append, groupLoop]
    rw [Run.andThen_assoc]
    congr 1
    funext s2
    exact ih s2

theorem instanceGroupLoop_eq {σ : Type} (b : Backend σ) (config : configData)
    (t n : GoString) (urls : List GoString) (s : σ) :
    instanceGroupLoop b config t n urls s =
      groupLoop b config t (urls.map (fun u => (n, u))) s := by
  induction urls generalizing s with
  | nil => rfl
  | cons u rest ih =>
    simp only [instanceGroupLoop, List.map_cons, groupLoop]
    congr 1
    funext s2
    exact ih s2

theorem nodePoolLoop_eq {σ : Type} (b : Backend σ) (config : configData)
    (t : GoString) (nodePools : List NodePool) (s : σ) :
    nodePoolLoop b config t nodePools s = groupLoop b config t (groupsInOrder nodePools) s := by
  induction nodePools generalizing s with
  | nil => rfl
  | cons np rest ih =>
    simp only [nodePoolLoop, groupsInOrder, List.flatMap_cons]
    rw [groupLoop_append, instanceGroupLoop_eq]
    congr 1
    funext s2
    exact ih s2

theorem hasPool_iff (t : GoString) (pools : List GoString) :
    hasPool t pools = true ↔ t ∈ pools := by
  induction pools with
  | nil => simp [hasPool]
  | cons x rest ih =>
    unfold hasPool
    by_cases h : x = t
    · simp [h]
    · have h2 : ¬ t = x := fun e => h e.symm
      simp [h, h2, ih]

/-- The four ways the loop body can go, read off the two responses. -/
theorem processInstanceGroup_cases {σ : Type} (b : Backend σ) (config : configData)
    (t n u : GoString) (s : σ) :
    (∃ e, (b.instanceGroupManagersGet config.projectID config.zone (shortName u) s).2 = .error e ∧
      (processInstanceGroup b config t n u s).flow = .returned e ∧
      (processInstanceGroup b config t n u s).state =
        (b.instanceGroupManagersGet config.projectID config.zone (shortName u) s).1 ∧
      (processInstanceGroup b config t n u s).calls =
        [.instanceGroupManagersGet config.projectID config.zone (shortName u) (.error e)]) ∨
    (∃ pools, (b.instanceGroupManagersGet config.projectID config.zone (shortName u) s).2 = .ok pools ∧
      t ∈ pools ∧
      (processInstanceGroup b config t n u s).flow = .done ∧
      (processInstanceGroup b config t n u s).state =
        (b.instanceGroupManagersGet config.projectID config.zone (shortName u) s).1 ∧
      (processInstanceGroup b config t n u s).calls =
        [.instanceGroupManagersGet config.projectID config.zone (shortName u) (.ok pools)]) ∨
    (∃ pools e,
      (b.instanceGroupManagersGet config.projectID config.zone (shortName u) s).2 = .ok pools ∧
      t ∉ pools ∧
      (b.setTargetPools config.projectID config.zone (shortName u) (pools ++ [t])
        (b.instanceGroupManagersGet config.projectID config.zone (shortName u) s).1).2 = .error e ∧
      (processInstanceGroup b config t n u s).flow = .returned e ∧
      (processInstanceGroup b config t n u s).state =
        (b.setTargetPools config.projectID config.zone (shortName u) (pools ++ [t])
          (b.instanceGroupManagersGet config.projectID config.zone (shortName u) s).1).1 ∧
      (processInstanceGroup b config t n u s).calls =
        [.instanceGroupManagersGet config.projectID config.zone (shortName u) (.ok pools),
         .setTargetPools config.projectID config.zone (shortName u) (pools ++ [t]) (.error e)]) ∨
    (∃ pools op,
      (b.instanceGroupManagersGet config.projectID config.zone (shortName u) s).2 = .ok pools ∧
      t ∉ pools ∧
      (b.setTargetPools config.projectID config.zone (shortName u) (pools ++ [t])
        (b.instanceGroupManagersGet config.projectID config.zone (shortName u) s).1).2 = .ok op ∧
      (processInstanceGroup b config t n u s).flow = .done ∧
      (processInstanceGroup b config t n u s).state =
        (b.setTargetPools config.projectID config.zone (shortName u) (pools ++ [t])
          (b.instanceGroupManagersGet config.projectID config.zone (shortName u) s).1).1 ∧
      (processInstanceGroup b config t n u s).calls =
        [.instanceGroupManagersGet config.projectID config.zone (shortName u) (.ok pools),
         .setTargetPools config.projectID config.zone (shortName u) (pools ++ [t]) (.ok op)]) := by
  unfold processInstanceGroup
  rw [instanceGroupName_shortName]
  simp only []
  rcases hg : (b.instanceGroupManagersGet config.projectID config.zone (shortName u) s).2
    with pools | e
  · by_cases hp : hasPool t pools = true
    · right; left
      refine ⟨pools, rfl, (hasPool_iff t pools).mp hp, ?_⟩
      simp [hp]
    · have hn : t ∉ pools := fun h => hp ((hasPool_iff t pools).mpr h)
      rcases hs : (b.setTargetPools config.projectID config.zone (shortName u) (pools ++ [t])
        (b.instanceGroupManagersGet config.projectID config.zone (shortName u) s).1).2
        with op | e
      · right; right; right
        refine ⟨pools, op, rfl, hn, hs, ?_⟩
        simp [hp, hs]
      · right; right; left
        refine ⟨pools, e, rfl, hn, hs, ?_⟩
        simp [hp, hs]
  · left
    exact ⟨e, rfl, by simp⟩

theorem groupLoop_groupCalls {σ : Type} (b : Backend σ) (config : configData)
    (t : GoString) (gs : List (GoString × GoString)) (s : σ) :
    GroupCalls config.projectID config.zone t (groupLoop b config t gs s).flow
      (groupLoop b config t gs s).calls := by
  induction gs generalizing s with
  | nil => exact GroupCalls.nil
  | cons g rest ih =>
    simp only [groupLoop]
    rcases processInstanceGroup_cases b config t g.1 g.2 s with
      ⟨e, _, hf, _, hc⟩ | ⟨pools, _, hm, hf, hst, hc⟩ | ⟨pools, e, _, hm, _, hf, _, hc⟩ |
      ⟨pools, op, _, hm, _, hf, hst, hc⟩
    · rw [Run.andThen_stop _ _ (by rw [hf]; simp), hf, hc]
      exact GroupCalls.readFailed _ e
    · rw [Run.andThen_done _ _ hf]
      simp only [hc, List.singleton_append]
      exact GroupCalls.present _ pools _ _ hm (ih _)
    · rw [Run.andThen_stop _ _ (by rw [hf]; simp), hf, hc]
      exact GroupCalls.writeFailed _ pools e hm
    · rw [Run.andThen_done _ _ hf]
      simp only [hc, List.cons_append, List.nil_append]
      exact GroupCalls.written _ pools op _ _ hm (ih _)

/-! ## The shape of the calls of a cycle -/

theorem GroupCalls.head_read {p z t : GoString} {f : Flow} {cs : List Event}
    (h : GroupCalls p z t f cs) :
    (cs = [] ∧ f = .done) ∨ ∃ n r rest, cs = .instanceGroupManagersGet p z n r :: rest := by
  cases h with
  | nil => left; exact ⟨rfl, rfl⟩
  | readFailed name e => right; exact ⟨_, _, _, rfl⟩
  | present name pools f rest hm hr => right; exact ⟨_, _, _, rfl⟩
  | writeFailed name pools e hm => right; exact ⟨_, _, _, rfl⟩
  | written name pools op f rest hm hr => right; exact ⟨_, _, _, rfl⟩

/-- What follows a successful read in the calls of a run over instance groups. -/
theorem GroupCalls.after_read {p z t : GoString} {f : Flow} {cs : List Event}
    (h : GroupCalls p z t f cs) (pre post : List Event) (p2 z2 name : GoString)
    (pools : List GoString)
    (hcs : cs = pre ++ .instanceGroupManagersGet p2 z2 name (.ok pools) :: post) :
    p2 = p ∧ z2 = z ∧
    (t ∈ pools → (post = [] ∧ f = .done) ∨
      ∃ n r rest, post = .instanceGroupManagersGet p z n r :: rest) ∧
    (t ∉ pools → ∃ resp rest, post = .setTargetPools p z name (pools ++ [t]) resp :: rest ∧
      (rest = [] ∨ ∃ n r rest2, rest = .instanceGroupManagersGet p z n r :: rest2)) := by
  induction h generalizing pre with
  | nil => simp at hcs
  | readFailed n e =>
    rcases pre with _ | ⟨x, pre⟩
    · simp at hcs
    · simp at hcs
  | present n ps f rest hm hr ih =>
    rcases pre with _ | ⟨x, pre⟩
    · simp only [List.nil_append, List.cons.injEq, Event.instanceGroupManagersGet.injEq,
        Resp.ok.injEq] at hcs
      obtain ⟨⟨h1, h2, h3, h4⟩, h5⟩ := hcs
      subst h1 h2 h3 h4 h5
      refine ⟨rfl, rfl, fun _ => ?_, fun hn => absurd hm hn⟩
      exact hr.head_read
    · simp only [List.cons_append, List.cons.injEq] at hcs
      exact ih pre hcs.2
  | writeFailed n ps e hm =>
    rcases pre with _ | ⟨x, pre⟩
    · simp only [List.nil_append, List.cons.injEq, Event.instanceGroupManagersGet.injEq,
        Resp.ok.injEq] at hcs
      obtain ⟨⟨h1, h2, h3, h4⟩, h5⟩ := hcs
      subst h1 h2 h3 h4 h5
      exact ⟨rfl, rfl, fun hin => absurd hin hm, fun _ => ⟨_, _, rfl, Or.inl rfl⟩⟩
    · rcases pre with _ | ⟨y, pre⟩
      · simp at hcs
      · simp at hcs
  | written n ps op f rest hm hr ih =>
    rcases pre with _ | ⟨x, pre⟩
    · simp only [List.nil_append, List.cons.injEq, Event.instanceGroupManagersGet.injEq,
        Resp.ok.injEq] at hcs
      obtain ⟨⟨h1, h2, h3, h4⟩, h5⟩ := hcs
      subst h1 h2 h3 h4 h5
      refine ⟨rfl, rfl, fun hin => absurd hin hm, fun _ => ⟨_, _, rfl, ?_⟩⟩
      rcases hr.head_read with ⟨h1, _⟩ | h1
      · exact Or.inl h1
      · exact Or.inr h1
    · rcases pre with _ | ⟨y, pre⟩
      · simp at hcs
      · simp only [List.cons_append, List.cons.injEq] at hcs
        exact ih pre hcs.2.2

/-- What precedes a write in the calls of a run over instance groups. -/
theorem GroupCalls.before_write {p z t : GoString} {f : Flow} {cs : List Event}
    (h : GroupCalls p z t f cs) (pre post : List Event) (p2 z2 name : GoString)
    (tps : List GoString) (resp : Resp Operation)
    (hcs : cs = pre ++ .setTargetPools p2 z2 name tps resp :: post) :
    ∃ pre2 pools, pre = pre2 ++ [.instanceGroupManagersGet p2 z2 name (.ok pools)] ∧
      t ∉ pools ∧ tps = pools ++ [t] := by
  induction h generalizing pre with
  | nil => simp at hcs
  | readFailed n e =>
    rcases pre with _ | ⟨x, pre⟩
    · simp at hcs
    · simp at hcs
  | present n ps f rest hm hr ih =>
    rcases pre with _ | ⟨x, pre⟩
    · simp at hcs
    · simp only [List.cons_append, List.cons.injEq] at hcs
      obtain ⟨pre2, pools, h1, h2, h3⟩ := ih pre hcs.2
      exact ⟨x :: pre2, pools, by rw [h1]; rfl, h2, h3⟩
  | writeFailed n ps e hm =>
    rcases pre with _ | ⟨x, pre⟩
    · simp at hcs
    · rcases pre with _ | ⟨y, pre⟩
      · simp only [List.cons_append, List.nil_append, List.cons.injEq,
          Event.setTargetPools.injEq] at hcs
        obtain ⟨h1, ⟨h2, h3, h4, h5, _⟩, _⟩ := hcs
        subst h1 h2 h3 h4 h5
        exact ⟨[], ps, rfl, hm, rfl⟩
      · simp at hcs
  | written n ps op f rest hm hr ih =>
    rcases pre with _ | ⟨x, pre⟩
    · simp at hcs
    · rcases pre with _ | ⟨y, pre⟩
      · simp only [List.cons_append, List.nil_append, List.cons.injEq,
          Event.setTargetPools.injEq] at hcs
        obtain ⟨h1, ⟨h2, h3, h4, h5, _⟩, _⟩ := hcs
        subst h1 h2 h3 h4 h5
        exact ⟨[], ps, rfl, hm, rfl⟩
      · simp only [List.cons_append, List.cons.injEq] at hcs
        obtain ⟨pre2, pools, h1, h2, h3⟩ := ih pre hcs.2.2
        exact ⟨x :: y :: pre2, pools, by rw [h1]; rfl, h2, h3⟩

theorem GroupCalls.no_discovery {p z t : GoString} {f : Flow} {cs : List Event}
    (h : GroupCalls p z t f cs) (ev : Event) (hev : ev ∈ cs) :
    (∀ a b c r, ev ≠ .nodePoolsList a b c r) ∧ (∀ a b c r, ev ≠ .targetPoolsGet a b c r) := by
  induction h with
  | nil => simp at hev
  | readFailed n e =>
    simp only [List.mem_singleton] at hev
    subst hev
    exact ⟨fun _ _ _ _ h => Event.noConfusion h, fun _ _ _ _ h => Event.noConfusion h⟩
  | present n ps f rest hm hr ih =>
    rcases List.mem_cons.mp hev with h1 | h1
    · subst h1
      exact ⟨fun _ _ _ _ h => Event.noConfusion h, fun _ _ _ _ h => Event.noConfusion h⟩
    · exact ih h1
  | writeFailed n ps e hm =>
    simp only [List.mem_cons, List.mem_singleton, List.not_mem_nil, or_false] at hev
    rcases hev with h1 | h1 <;> subst h1 <;>
      exact ⟨fun _ _ _ _ h => Event.noConfusion h, fun _ _ _ _ h => Event.noConfusion h⟩
  | written n ps op f rest hm hr ih =>
    rcases List.mem_cons.mp hev with h1 | h1
    · subst h1
      exact ⟨fun _ _ _ _ h => Event.noConfusion h, fun _ _ _ _ h => Event.noConfusion h⟩
    · rcases List.mem_cons.mp h1 with h2 | h2
      · subst h2
        exact ⟨fun _ _ _ _ h => Event.noConfusion h, fun _ _ _ _ h => Event.noConfusion h⟩
      · exact ih h2

/-- After a successful discovery the cycle is the run over the instance groups
in order, behind the two discovery calls. -/
theorem doUpdate_discovered {σ : Type} (b : Backend σ) (config : configData) (s : σ)
    (nodePools : List NodePool) (t : GoString)
    (hc : b.containerNew = .ok ()) (hk : b.computeNew = .ok ())
    (hl : (b.nodePoolsList config.projectID config.zone config.clusterID s).2 = .ok nodePools)
    (ht : (b.targetPoolsGet config.projectID config.region config.targetPoolID
      (b.nodePoolsList config.projectID config.zone config.clusterID s).1).2 = .ok t) :
    (doUpdate b config s).flow =
      (groupLoop b config t (groupsInOrder nodePools)
        (b.targetPoolsGet config.projectID config.region config.targetPoolID
          (b.nodePoolsList config.projectID config.zone config.clusterID s).1).1).flow ∧
    (doUpdate b config s).state =
      (groupLoop b config t (groupsInOrder nodePools)
        (b.targetPoolsGet config.projectID config.region config.targetPoolID
          (b.nodePoolsList config.projectID config.zone config.clusterID s).1).1).state ∧
    (doUpdate b config s).calls =
      [.nodePoolsList config.projectID config.zone config.clusterID (.ok nodePools),
       .targetPoolsGet config.projectID config.region config.targetPoolID (.ok t)] ++
      (groupLoop b config t (groupsInOrder nodePools)
        (b.targetPoolsGet config.projectID config.region config.targetPoolID
          (b.nodePoolsList config.projectID config.zone config.clusterID s).1).1).calls := by
  unfold doUpdate
  simp [hc, hk, hl, ht, nodePoolLoop_eq]

/-- The calls of a cycle: none, a failed listing, a listing and a failed
resolution, or the two discovery calls followed by the calls of the groups. -/
theorem doUpdate_shape {σ : Type} (b : Backend σ) (config : configData) (s : σ) :
    (∃ e, (doUpdate b config s).flow = .returned e ∧ (doUpdate b config s).calls = []) ∨
    (∃ e, (doUpdate b config s).flow = .returned e ∧ (doUpdate b config s).calls =
      [.nodePoolsList config.projectID config.zone config.clusterID (.error e)]) ∨
    (∃ e nodePools, (doUpdate b config s).flow = .returned e ∧ (doUpdate b config s).calls =
      [.nodePoolsList config.projectID config.zone config.clusterID (.ok nodePools),
       .targetPoolsGet config.projectID config.region config.targetPoolID (.error e)]) ∨
    (∃ nodePools t cs, (doUpdate b config s).calls =
      .nodePoolsList config.projectID config.zone config.clusterID (.ok nodePools) ::
       .targetPoolsGet config.projectID config.region config.targetPoolID (.ok t) :: cs ∧
      GroupCalls config.projectID config.zone t (doUpdate b config s).flow cs) := by
  rcases hc : b.containerNew with _ | e
  · rcases hk : b.computeNew with _ | e
    · rcases hl : (b.nodePoolsList config.projectID config.zone config.clusterID s).2
        with nodePools | e
      · rcases ht : (b.targetPoolsGet config.projectID config.region config.targetPoolID
          (b.nodePoolsList config.projectID config.zone config.clusterID s).1).2 with t | e
        · right; right; right
          obtain ⟨h1, _, h3⟩ := doUpdate_discovered b config s nodePools t hc hk hl ht
          refine ⟨nodePools, t, _, h3, ?_⟩
          rw [h1]
          exact groupLoop_groupCalls b config t _ _
        · right; right; left
          refine ⟨e, nodePools, ?_, ?_⟩ <;> (unfold doUpdate; simp only [hc, hk, hl, ht])
      · right; left
        refine ⟨e, ?_, ?_⟩ <;> (unfold doUpdate; simp only [hc, hk, hl])
    · left
      refine ⟨e, ?_, ?_⟩ <;> (unfold doUpdate; simp only [hc, hk])
  · left
    refine ⟨e, ?_, ?_⟩ <;> (unfold doUpdate; simp only [hc])

/-- The calls of the groups in a cycle whose calls contain a successful
resolution of the target pool. -/
theorem doUpdate_group_calls {σ : Type} (b : Backend σ) (config : configData) (s : σ)
    (t p r tp : GoString)
    (ht : Event.targetPoolsGet p r tp (.ok t) ∈ (doUpdate b config s).calls) :
    ∃ nodePools cs, (doUpdate b config s).calls =
      .nodePoolsList config.projectID config.zone config.clusterID (.ok nodePools) ::
       .targetPoolsGet config.projectID config.region config.targetPoolID (.ok t) :: cs ∧
      GroupCalls config.projectID config.zone t (doUpdate b config s).flow cs := by
  rcases doUpdate_shape b config s with ⟨e, _, h⟩ | ⟨e, _, h⟩ | ⟨e, nps, _, h⟩ |
    ⟨nps, t2, cs, h, hg⟩
  · rw [h] at ht; simp at ht
  · rw [h] at ht; simp at ht
  · rw [h] at ht; simp at ht
  · rw [h] at ht
    rcases List.mem_cons.mp ht with h1 | h1
    · cases h1
    · rcases List.mem_cons.mp h1 with h2 | h2
      · simp only [Event.targetPoolsGet.injEq, Resp.ok.injEq] at h2
        obtain ⟨_, _, _, h3⟩ := h2
        subst h3
        exact ⟨nps, cs, h, hg⟩
      · exact absurd rfl ((hg.no_discovery _ h2).2 p r tp (.ok t))

/-- Splitting the calls of a cycle at a call of a group: the two discovery calls
belong to the part before it. -/
theorem split_after_discovery (l d ev : Event) (cs pre post : List Event)
    (h : l :: d :: cs = pre ++ ev :: post) (hne1 : ev ≠ l) (hne2 : ev ≠ d) :
    ∃ pre2, pre = l :: d :: pre2 ∧ cs = pre2 ++ ev :: post := by
  rcases pre with _ | ⟨x, pre⟩
  · simp only [List.nil_append, List.cons.injEq] at h
    exact absurd h.1.symm hne1
  · rcases pre with _ | ⟨y, pre⟩
    · simp only [List.cons_append, List.nil_append, List.cons.injEq] at h
      exact absurd h.2.1.symm hne2
    · simp only [List.cons_append, List.cons.injEq] at h
      obtain ⟨h1, h2, h3⟩ := h
      subst h1 h2
      exact ⟨pre, rfl, h3⟩

/-! ## The claims -/

/-- C1 (additive-only write).  In the calls of any cycle, over any control
plane: when the target pool resolved to `t` and the read of an instance group
succeeded with a list `pools` that has no entry `t`, the very next call is a
`SetTargetPools` for the same project, zone and group name whose list is
`pools ++ [t]` (every entry read, in order and multiplicity, then `t` once), and
the call after it, if any, is the read of the next group: exactly one write is
issued for that visit of the group. -/
theorem doUpdate_write_appends_target {σ : Type} (b : Backend σ) (config : configData) (s : σ)
    (t p r tp : GoString)
    (ht : Event.targetPoolsGet p r tp (.ok t) ∈ (doUpdate b config s).calls)
    (pre post : List Event) (p2 z2 name : GoString) (pools : List GoString)
    (hread : (doUpdate b config s).calls =
      pre ++ .instanceGroupManagersGet p2 z2 name (.ok pools) :: post)
    (habsent : t ∉ pools) :
    ∃ resp rest, post = .setTargetPools p2 z2 name (pools ++ [t]) resp :: rest ∧
      (rest = [] ∨ ∃ n r2 rest2, rest = .instanceGroupManagersGet p2 z2 n r2 :: rest2) := by
  obtain ⟨nps, cs, hcalls, hg⟩ := doUpdate_group_calls b config s t p r tp ht
  rw [hcalls] at hread
  obtain ⟨pre2, _, hcs⟩ := split_after_discovery _ _ _ cs pre post hread
    (fun h => Event.noConfusion h) (fun h => Event.noConfusion h)
  obtain ⟨h1, h2, _, h4⟩ := hg.after_read pre2 post p2 z2 name pools hcs
  subst h1 h2
  exact h4 habsent

/-- Witness for C1: the first group of the example lists only "poolA"; the call
after its read is the write of "poolA", "poolX". -/
theorem doUpdate_write_appends_target_witness :
    ∃ resp rest, (doUpdate exampleBackend exampleConfig ()).calls.drop 3 =
        .setTargetPools (utf8 "proj") (utf8 "us-central1-a") (utf8 "g1")
          ([utf8 "poolA"] ++ [utf8 "poolX"]) resp :: rest ∧
      (rest = [] ∨ ∃ n r2 rest2,
        rest = .instanceGroupManagersGet (utf8 "proj") (utf8 "us-central1-a") n r2 :: rest2) :=
  doUpdate_write_appends_target exampleBackend exampleConfig () (utf8 "poolX")
    (utf8 "proj") (utf8 "us-central1") (utf8 "pool") (by decide)
    ((doUpdate exampleBackend exampleConfig ()).calls.take 2)
    ((doUpdate exampleBackend exampleConfig ()).calls.drop 3)
    (utf8 "proj") (utf8 "us-central1-a") (utf8 "g1") [utf8 "poolA"] (by decide) (by decide)

/-- C5 (cycle abort on discovery failure).  With both service clients built:
if the node-pool listing fails with `e`, the cycle returns `e` and the listing
is its only call; if the listing succeeds and the target-pool resolution fails
with `e`, the cycle returns `e` and these two are its only calls.  In both cases
no instance group is read or written, whatever the topology and the state. -/
theorem doUpdate_discovery_failure_aborts {σ : Type} (b : Backend σ) (config : configData)
    (s : σ) (hc : b.containerNew = .ok ()) (hk : b.computeNew = .ok ()) :
    (∀ e, (b.nodePoolsList config.projectID config.zone config.clusterID s).2 = .error e →
      (doUpdate b config s).flow = .returned e ∧
      (doUpdate b config s).calls =
        [.nodePoolsList config.projectID config.zone config.clusterID (.error e)]) ∧
    (∀ nodePools e,
      (b.nodePoolsList config.projectID config.zone config.clusterID s).2 = .ok nodePools →
      (b.targetPoolsGet config.projectID config.region config.targetPoolID
        (b.nodePoolsList config.projectID config.zone config.clusterID s).1).2 = .error e →
      (doUpdate b config s).flow = .returned e ∧
      (doUpdate b config s).calls =
        [.nodePoolsList config.projectID config.zone config.clusterID (.ok nodePools),
         .targetPoolsGet config.projectID config.region config.targetPoolID (.error e)]) := by
  constructor
  · intro e hl
    unfold doUpdate
    simp [hc, hk, hl]
  · intro nodePools e hl ht
    unfold doUpdate
    simp [hc, hk, hl, ht]

/-- Witness for C5: a listing that fails, and a resolution that fails after a
listing of the example topology. -/
theorem doUpdate_discovery_failure_aborts_witness :
    ((doUpdate (fixedBackend (.error ⟨utf8 "no cluster"⟩) (.ok (utf8 "poolX"))
        (fun _ => .ok []) (fun _ _ => .ok cleanOperation)) exampleConfig ()).flow =
      .returned ⟨utf8 "no cluster"⟩ ∧
     (doUpdate (fixedBackend (.error ⟨utf8 "no cluster"⟩) (.ok (utf8 "poolX"))
        (fun _ => .ok []) (fun _ _ => .ok cleanOperation)) exampleConfig ()).calls =
      [.nodePoolsList exampleConfig.projectID exampleConfig.zone exampleConfig.clusterID
        (.error ⟨utf8 "no cluster"⟩)]) ∧
    ((doUpdate (fixedBackend (.ok exampleNodePools) (.error ⟨utf8 "no pool"⟩)
        (fun _ => .ok []) (fun _ _ => .ok cleanOperation)) exampleConfig ()).flow =
      .returned ⟨utf8 "no pool"⟩ ∧
     (doUpdate (fixedBackend (.ok exampleNodePools) (.error ⟨utf8 "no pool"⟩)
        (fun _ => .ok []) (fun _ _ => .ok cleanOperation)) exampleConfig ()).calls =
      [.nodePoolsList exampleConfig.projectID exampleConfig.zone exampleConfig.clusterID
        (.ok exampleNodePools),
       .targetPoolsGet exampleConfig.projectID exampleConfig.region exampleConfig.targetPoolID
        (.error ⟨utf8 "no pool"⟩)]) :=
  ⟨(doUpdate_discovery_failure_aborts (fixedBackend (.error ⟨utf8 "no cluster"⟩)
      (.ok (utf8 "poolX")) (fun _ => .ok []) (fun _ _ => .ok cleanOperation)) exampleConfig ()
      rfl rfl).1 ⟨utf8 "no cluster"⟩ rfl,
   (doUpdate_discovery_failure_aborts (fixedBackend (.ok exampleNodePools)
      (.error ⟨utf8 "no pool"⟩) (fun _ => .ok []) (fun _ _ => .ok cleanOperation))
      exampleConfig () rfl rfl).2 exampleNodePools ⟨utf8 "no pool"⟩ rfl rfl⟩

/-! ## Lemmas for the failure of a group -/

theorem groupLoop_reads {σ : Type} (b : Backend σ) (config : configData) (t : GoString)
    (gs : List (GoString × GoString)) (s : σ)
    (h : (groupLoop b config t gs s).flow = .done) :
    (groupLoop b config t gs s).calls.filterMap Event.readName =
      gs.map (fun g => shortName g.2) := by
  induction gs generalizing s with
  | nil => rfl
  | cons g rest ih =>
    simp only [groupLoop] at h ⊢
    rcases processInstanceGroup_cases b config t g.1 g.2 s with
      ⟨e, _, hf, _, hc⟩ | ⟨pools, _, hm, hf, hst, hc⟩ | ⟨pools, e, _, hm, _, hf, _, hc⟩ |
      ⟨pools, op, _, hm, _, hf, hst, hc⟩
    · rw [Run.andThen_stop _ _ (by rw [hf]; simp), hf] at h
      cases h
    · rw [Run.andThen_done _ _ hf] at h ⊢
      simp only [hc, List.singleton_append, List.map_cons]
      simp only [List.filterMap_cons, Event.readName]
      rw [ih _ h]
    · rw [Run.andThen_stop _ _ (by rw [hf]; simp), hf] at h
      cases h
    · rw [Run.andThen_done _ _ hf] at h ⊢
      simp only [hc, List.cons_append, List.nil_append, List.map_cons]
      simp only [List.filterMap_cons, Event.readName]
      rw [ih _ h]

theorem processInstanceGroup_agrees {σ : Type} (b b2 : Backend σ) (config : configData)
    (t n u : GoString) (s : σ) (hag : b2.AgreesOnSuccess b)
    (h : (processInstanceGroup b config t n u s).flow = .done) :
    processInstanceGroup b2 config t n u s = processInstanceGroup b config t n u s := by
  rcases processInstanceGroup_cases b config t n u s with
    ⟨e, _, hf, _, _⟩ | ⟨pools, hr, hm, _, _, _⟩ | ⟨pools, e, _, _, _, hf, _, _⟩ |
    ⟨pools, op, hr, hm, hw, _, _, _⟩
  · rw [hf] at h; cases h
  · have hget := hag.1 _ _ _ _ pools hr
    have hp : hasPool t pools = true := (hasPool_iff t pools).mpr hm
    unfold processInstanceGroup
    rw [instanceGroupName_shortName]
    simp [hget, hr, hp]
  · rw [hf] at h; cases h
  · have hget := hag.1 _ _ _ _ pools hr
    have hset := hag.2 _ _ _ _ _ op hw
    have hp : hasPool t pools = false :=
      Bool.eq_false_iff.mpr (fun h2 => hm ((hasPool_iff t pools).mp h2))
    unfold processInstanceGroup
    rw [instanceGroupName_shortName]
    simp [hget, hr, hp, hset, hw]

theorem groupLoop_agrees {σ : Type} (b b2 : Backend σ) (config : configData)
    (t : GoString) (gs : List (GoString × GoString)) (s : σ) (hag : b2.AgreesOnSuccess b)
    (h : (groupLoop b config t gs s).flow = .done) :
    groupLoop b2 config t gs s = groupLoop b config t gs s := by
  induction gs generalizing s with
  | nil => rfl
  | cons g rest ih =>
    simp only [groupLoop] at h ⊢
    by_cases hf : (processInstanceGroup b config t g.1 g.2 s).flow = .done
    · rw [processInstanceGroup_agrees b b2 config t g.1 g.2 s hag hf]
      rw [Run.andThen_done _ _ hf] at h ⊢
      rw [Run.andThen_done _ _ hf]
      simp only at h
      rw [ih _ h]
    · rw [Run.andThen_stop _ _ hf] at h
      exact absurd h hf

/-- C6 (abort of the remainder on a per-group failure).  After a successful
discovery of `nodePools` and `t`, let the instance groups in processing order
(node pools as returned, URLs as listed) be `before ++ g :: later`, where the
groups of `before` were processed to the end.  If the read of `g` fails with
`e`, or its read succeeds without `t` and its write fails with `e`, then the
cycle returns `e`; its calls are the two discovery calls, the calls of the
groups of `before`, and the failed read (or the read and the failed write) of
`g`, with nothing after it; its reads are those of `before` and of `g`, in this
order, and none of `later`; and the calls of the groups of `before` are the ones
issued by any control plane that answers as this one does wherever this one
succeeds (one where the failure did not occur). -/
theorem doUpdate_group_failure_aborts_rest {σ : Type} (b : Backend σ) (config : configData)
    (s : σ) (nodePools : List NodePool) (t : GoString)
    (hc : b.containerNew = .ok ()) (hk : b.computeNew = .ok ())
    (hl : (b.nodePoolsList config.projectID config.zone config.clusterID s).2 = .ok nodePools)
    (ht : (b.targetPoolsGet config.projectID config.region config.targetPoolID
      (b.nodePoolsList config.projectID config.zone config.clusterID s).1).2 = .ok t)
    (before later : List (GoString × GoString)) (g : GoString × GoString)
    (hg : groupsInOrder nodePools = before ++ g :: later)
    (s0 : σ)
    (hs0 : s0 = (b.targetPoolsGet config.projectID config.region config.targetPoolID
      (b.nodePoolsList config.projectID config.zone config.clusterID s).1).1)
    (hbefore : (groupLoop b config t before s0).flow = .done)
    (e : Err)
    (hfail :
      (b.instanceGroupManagersGet config.projectID config.zone (shortName g.2)
        (groupLoop b config t before s0).state).2 = .error e ∨
      ∃ pools,
        (b.instanceGroupManagersGet config.projectID config.zone (shortName g.2)
          (groupLoop b config t before s0).state).2 = .ok pools ∧ t ∉ pools ∧
        (b.setTargetPools config.projectID config.zone (shortName g.2) (pools ++ [t])
          (b.instanceGroupManagersGet config.projectID config.zone (shortName g.2)
            (groupLoop b config t before s0).state).1).2 = .error e) :
    (doUpdate b config s).flow = .returned e ∧
    (∃ block, (doUpdate b config s).calls =
        .nodePoolsList config.projectID config.zone config.clusterID (.ok nodePools) ::
        .targetPoolsGet config.projectID config.region config.targetPoolID (.ok t) ::
        ((groupLoop b config t before s0).calls ++ block) ∧
      (block = [.instanceGroupManagersGet config.projectID config.zone (shortName g.2)
          (.error e)] ∨
       ∃ pools, block =
        [.instanceGroupManagersGet config.projectID config.zone (shortName g.2) (.ok pools),
         .setTargetPools config.projectID config.zone (shortName g.2) (pools ++ [t])
          (.error e)])) ∧
    (doUpdate b config s).calls.filterMap Event.readName =
      (before ++ [g]).map (fun x => shortName x.2) ∧
    (∀ b2 : Backend σ, b2.AgreesOnSuccess b →
      (groupLoop b2 config t before s0).flow = .done ∧
      (groupLoop b2 config t before s0).calls = (groupLoop b config t before s0).calls) := by
  obtain ⟨h1, _, h3⟩ := doUpdate_discovered b config s nodePools t hc hk hl ht
  rw [← hs0, hg, groupLoop_append, Run.andThen_done _ _ hbefore] at h1 h3
  simp only [groupLoop] at h1 h3
  have hreads := groupLoop_reads b config t before s0 hbefore
  have key : ∃ block, (processInstanceGroup b config t g.1 g.2
        (groupLoop b config t before s0).state).flow = .returned e ∧
      (processInstanceGroup b config t g.1 g.2 (groupLoop b config t before s0).state).calls =
        block ∧
      (block = [.instanceGroupManagersGet config.projectID config.zone (shortName g.2)
          (.error e)] ∨
       ∃ pools, block =
        [.instanceGroupManagersGet config.projectID config.zone (shortName g.2) (.ok pools),
         .setTargetPools config.projectID config.zone (shortName g.2) (pools ++ [t])
          (.error e)]) := by
    rcases processInstanceGroup_cases b config t g.1 g.2 (groupLoop b config t before s0).state
      with ⟨e2, hr, hf, _, hcl⟩ | ⟨pools, hr, hm, hf, _, hcl⟩ |
        ⟨pools, e2, hr, hm, hw, hf, _, hcl⟩ | ⟨pools, op, hr, hm, hw, hf, _, hcl⟩
    · rcases hfail with h | ⟨pools, h, _, _⟩
      · rw [hr] at h; cases h
        exact ⟨_, hf, hcl, Or.inl rfl⟩
      · rw [hr] at h; cases h
    · rcases hfail with h | ⟨pools2, h, hn, _⟩
      · rw [hr] at h; cases h
      · rw [hr] at h; cases h
        exact absurd hm hn
    · rcases hfail with h | ⟨pools2, h, hn, hw2⟩
      · rw [hr] at h; cases h
      · rw [hr] at h; cases h
        rw [hw] at hw2; cases hw2
        exact ⟨_, hf, hcl, Or.inr ⟨pools, rfl⟩⟩
    · rcases hfail with h | ⟨pools2, h, hn, hw2⟩
      · rw [hr] at h; cases h
      · rw [hr] at h; cases h
        rw [hw] at hw2; cases hw2
  obtain ⟨block, hf, hcl, hblock⟩ := key
  have hstop := Run.andThen_stop (processInstanceGroup b config t g.1 g.2
    (groupLoop b config t before s0).state) (groupLoop b config t later) (by rw [hf]; simp)
  rw [hstop] at h1 h3
  rw [hcl] at h3
  refine ⟨by rw [h1, hf], ⟨block, by rw [h3]; rfl, hblock⟩, ?_, ?_⟩
  · rw [h3]
    simp only [List.cons_append, List.nil_append, List.filterMap_cons, Event.readName,
      List.filterMap_append, hreads, List.map_append, List.map_cons, List.map_nil]
    rcases hblock with hb | ⟨pools, hb⟩ <;> rw [hb] <;> rfl
  · intro b2 hag
    rw [groupLoop_agrees b b2 config t before s0 hag hbefore]
    exact ⟨hbefore, rfl⟩

/-- Witness for C6: the read of the second group of the example fails. -/
theorem doUpdate_group_failure_aborts_rest_witness :
    (doUpdate failingBackend exampleConfig ()).flow = .returned ⟨utf8 "not found"⟩ ∧
    (doUpdate failingBackend exampleConfig ()).calls.filterMap Event.readName =
      [utf8 "g1", utf8 "g2"] :=
  have h := doUpdate_group_failure_aborts_rest failingBackend exampleConfig ()
    exampleNodePools (utf8 "poolX") rfl rfl rfl rfl
    [(utf8 "pool-1", utf8 "zones/a/g1")] [(utf8 "pool-2", utf8 "zones/a/g3")]
    (utf8 "pool-1", utf8 "zones/a/g2") (by decide) () rfl (by decide)
    ⟨utf8 "not found"⟩ (Or.inl (by decide))
  ⟨h.1, h.2.2.1.trans (by decide)⟩

/-! ## Lemmas for the continuation after a read -/

theorem groupLoop_cons_done {σ : Type} (b : Backend σ) (config : configData) (t : GoString)
    (g : GoString × GoString) (rest : List (GoString × GoString)) (s : σ)
    (h : (processInstanceGroup b config t g.1 g.2 s).flow = .done) :
    (groupLoop b config t (g :: rest) s).flow =
      (groupLoop b config t rest (processInstanceGroup b config t g.1 g.2 s).state).flow ∧
    (groupLoop b config t (g :: rest) s).state =
      (groupLoop b config t rest (processInstanceGroup b config t g.1 g.2 s).state).state ∧
    (groupLoop b config t (g :: rest) s).calls =
      (processInstanceGroup b config t g.1 g.2 s).calls ++
      (groupLoop b config t rest (processInstanceGroup b config t g.1 g.2 s).state).calls := by
  simp only [groupLoop]
  rw [Run.andThen_done _ _ h]
  exact ⟨rfl, rfl, rfl⟩

theorem groupLoop_cons_stop {σ : Type} (b : Backend σ) (config : configData) (t : GoString)
    (g : GoString × GoString) (rest : List (GoString × GoString)) (s : σ)
    (h : (processInstanceGroup b config t g.1 g.2 s).flow ≠ .done) :
    groupLoop b config t (g :: rest) s = processInstanceGroup b config t g.1 g.2 s := by
  simp only [groupLoop]
  rw [Run.andThen_stop _ _ h]

/-- A run over a non-empty sequence of groups starts with the read of its first
group. -/
theorem groupLoop_head_read {σ : Type} (b : Backend σ) (config : configData) (t : GoString)
    (g : GoString × GoString) (rest : List (GoString × GoString)) (s : σ) :
    ∃ r cs, (groupLoop b config t (g :: rest) s).calls =
      .instanceGroupManagersGet config.projectID config.zone (shortName g.2) r :: cs := by
  rcases processInstanceGroup_cases b config t g.1 g.2 s with
    ⟨e, _, hf, _, hc⟩ | ⟨pools, _, _, hf, _, hc⟩ | ⟨pools, e, _, _, _, hf, _, hc⟩ |
    ⟨pools, op, _, _, _, hf, _, hc⟩
  · rw [groupLoop_cons_stop b config t g rest s (by rw [hf]; simp), hc]
    exact ⟨_, _, rfl⟩
  · rw [(groupLoop_cons_done b config t g rest s hf).2.2, hc]
    exact ⟨_, _, rfl⟩
  · rw [groupLoop_cons_stop b config t g rest s (by rw [hf]; simp), hc]
    exact ⟨_, _, rfl⟩
  · rw [(groupLoop_cons_done b config t g rest s hf).2.2, hc]
    exact ⟨_, _, rfl⟩

/-- A successful read in the calls of a run over a sequence of groups is the
read of one group of the sequence, reached after the groups before it ran to
their end; when the list read holds `t`, the rest of the run is the run over the
groups after it, from the state the read left. -/
theorem groupLoop_at_read {σ : Type} (b : Backend σ) (config : configData) (t : GoString)
    (gs : List (GoString × GoString)) (s0 : σ) (pre post : List Event)
    (p2 z2 name : GoString) (pools : List GoString)
    (h : (groupLoop b config t gs s0).calls =
      pre ++ .instanceGroupManagersGet p2 z2 name (.ok pools) :: post) :
    ∃ before g later, gs = before ++ g :: later ∧
      (groupLoop b config t before s0).flow = .done ∧
      pre = (groupLoop b config t before s0).calls ∧
      name = shortName g.2 ∧
      (b.instanceGroupManagersGet config.projectID config.zone (shortName g.2)
        (groupLoop b config t before s0).state).2 = .ok pools ∧
      (t ∈ pools →
        (groupLoop b config t gs s0).flow =
          (groupLoop b config t later
            (b.instanceGroupManagersGet config.projectID config.zone (shortName g.2)
              (groupLoop b config t before s0).state).1).flow ∧
        (groupLoop b config t gs s0).state =
          (groupLoop b config t later
            (b.instanceGroupManagersGet config.projectID config.zone (shortName g.2)
              (groupLoop b config t before s0).state).1).state ∧
        post =
          (groupLoop b config t later
            (b.instanceGroupManagersGet config.projectID config.zone (shortName g.2)
              (groupLoop b config t before s0).state).1).calls) := by
  induction gs generalizing s0 pre with
  | nil =>
    simp only [groupLoop] at h
    exact absurd h (by simp)
  | cons g rest ih =>
    rcases processInstanceGroup_cases b config t g.1 g.2 s0 with
      ⟨e, _, hf, _, hc⟩ | ⟨pools0, hr, hm, hf, hst, hc⟩ | ⟨pools0, e, hr, hm, _, hf, _, hc⟩ |
      ⟨pools0, op, hr, hm, _, hf, hst, hc⟩
    · rw [groupLoop_cons_stop b config t g rest s0 (by rw [hf]; simp), hc] at h
      rcases pre with _ | ⟨x, pre⟩
      · simp at h
      · simp at h
    · obtain ⟨c1, c2, c3⟩ := groupLoop_cons_done b config t g rest s0 hf
      rw [c3, hc] at h
      rcases pre with _ | ⟨x, pre⟩
      · simp only [List.singleton_append, List.nil_append, List.cons.injEq,
          Event.instanceGroupManagersGet.injEq, Resp.ok.injEq] at h
        obtain ⟨⟨_, _, h3, h4⟩, h5⟩ := h
        subst h3 h4
        refine ⟨[], g, rest, rfl, rfl, rfl, rfl, hr, fun _ => ?_⟩
        rw [c1, c2, hst]
        rw [hst] at h5
        exact ⟨rfl, rfl, h5.symm⟩
      · simp only [List.singleton_append, List.cons_append, List.cons.injEq] at h
        obtain ⟨hx, h⟩ := h
        obtain ⟨before, g2, later, e1, e2, e3, e4, e5, e6⟩ := ih _ pre h
        obtain ⟨d1, d2, d3⟩ := groupLoop_cons_done b config t g before s0 hf
        refine ⟨g :: before, g2, later, by rw [e1]; rfl, d1.trans e2, ?_, e4, ?_, ?_⟩
        · rw [d3, hc, ← e3, ← hx]; rfl
        · rw [d2]; exact e5
        · intro hin
          rw [c1, c2, d2]
          exact e6 hin
    · rw [groupLoop_cons_stop b config t g rest s0 (by rw [hf]; simp), hc] at h
      rcases pre with _ | ⟨x, pre⟩
      · simp only [List.nil_append, List.cons.injEq, Event.instanceGroupManagersGet.injEq,
          Resp.ok.injEq] at h
        obtain ⟨⟨_, _, h3, h4⟩, _⟩ := h
        subst h3 h4
        exact ⟨[], g, rest, rfl, rfl, rfl, rfl, hr, fun hin => absurd hin hm⟩
      · rcases pre with _ | ⟨y, pre⟩
        · simp at h
        · simp at h
    · obtain ⟨c1, c2, c3⟩ := groupLoop_cons_done b config t g rest s0 hf
      rw [c3, hc] at h
      rcases pre with _ | ⟨x, pre⟩
      · simp only [List.cons_append, List.nil_append, List.cons.injEq,
          Event.instanceGroupManagersGet.injEq, Resp.ok.injEq] at h
        obtain ⟨⟨_, _, h3, h4⟩, _⟩ := h
        subst h3 h4
        exact ⟨[], g, rest, rfl, rfl, rfl, rfl, hr, fun hin => absurd hin hm⟩
      · rcases pre with _ | ⟨y, pre⟩
        · simp at h
        · simp only [List.cons_append, List.nil_append, List.cons.injEq] at h
          obtain ⟨hx, hy, h⟩ := h
          obtain ⟨before, g2, later, e1, e2, e3, e4, e5, e6⟩ := ih _ pre h
          obtain ⟨d1, d2, d3⟩ := groupLoop_cons_done b config t g before s0 hf
          refine ⟨g :: before, g2, later, by rw [e1]; rfl, d1.trans e2, ?_, e4, ?_, ?_⟩
          · rw [d3, hc, ← e3, ← hx, ← hy]; rfl
          · rw [d2]; exact e5
          · intro hin
            rw [c1, c2, d2]
            exact e6 hin

/-- A cycle whose calls contain a successful resolution of the target pool had
both clients built, a successful listing and that resolution. -/
theorem doUpdate_resolved {σ : Type} (b : Backend σ) (config : configData) (s : σ)
    (t p r tp : GoString)
    (ht : Event.targetPoolsGet p r tp (.ok t) ∈ (doUpdate b config s).calls) :
    ∃ nodePools, b.containerNew = .ok () ∧ b.computeNew = .ok () ∧
      (b.nodePoolsList config.projectID config.zone config.clusterID s).2 = .ok nodePools ∧
      (b.targetPoolsGet config.projectID config.region config.targetPoolID
        (b.nodePoolsList config.projectID config.zone config.clusterID s).1).2 = .ok t := by
  rcases hc : b.containerNew with _ | e
  · rcases hk : b.computeNew with _ | e
    · rcases hl : (b.nodePoolsList config.projectID config.zone config.clusterID s).2
        with nodePools | e
      · rcases hp : (b.targetPoolsGet config.projectID config.region config.targetPoolID
          (b.nodePoolsList config.projectID config.zone config.clusterID s).1).2 with t2 | e
        · obtain ⟨_, _, h3⟩ := doUpdate_discovered b config s nodePools t2 hc hk hl hp
          rw [h3] at ht
          rcases List.mem_append.mp ht with h4 | h4
          · simp only [List.mem_cons, Event.targetPoolsGet.injEq, Resp.ok.injEq,
              List.not_mem_nil, or_false, false_or] at h4
            rcases h4 with h4 | ⟨_, _, _, h5⟩
            · cases h4
            · subst h5
              exact ⟨nodePools, rfl, rfl, rfl, rfl⟩
          · exact absurd rfl (((groupLoop_groupCalls b config t2 _ _).no_discovery _ h4).2
              p r tp (.ok t))
        · exfalso
          unfold doUpdate at ht
          simp [hc, hk, hl, hp] at ht
      · exfalso
        unfold doUpdate at ht
        simp [hc, hk, hl] at ht
    · exfalso
      unfold doUpdate at ht
      simp [hc, hk] at ht
  · exfalso
    unfold doUpdate at ht
    simp [hc] at ht

theorem split_at_length {α : Type} (l before later : List α) (g : α) (k : Nat)
    (h : l = before ++ g :: later) (hk : before.length = k) :
    before = l.take k ∧ l[k]? = some g ∧ later = l.drop (k + 1) := by
  subst h hk
  refine ⟨by simp, ?_, ?_⟩
  · rw [List.getElem?_append_right (Nat.le_refl _)]
    simp
  · rw [← List.drop_drop]
    simp

/-- C2 (no-op when converged).  In the calls of any cycle, over any control
plane, with the target pool resolved to `t`: after the successful read of an
instance group with list `pools`, the next call is the write for that group if
and only if no entry of `pools` equals `t`; when `t` is an entry, the next call
is a read, or there is none and the cycle returns nil; every write of the cycle
directly follows the read of the same group whose list had no entry `t`.
Moreover the read is the one of a group `g` of the listed topology, reached
after the groups `before` it in processing order ran to their end (as many
groups as there are reads before it), and when `t` is an entry of `pools` the
rest of the cycle is the run over the groups `later` than `g`, from the state
the read left: the cycle ends as that run ends, the calls after the read are
its calls, so that with no group left there is no further call and the cycle
returns nil, and otherwise the next call is the read of the next group. -/
theorem doUpdate_write_iff_absent {σ : Type} (b : Backend σ) (config : configData) (s : σ)
    (t p r tp : GoString)
    (ht : Event.targetPoolsGet p r tp (.ok t) ∈ (doUpdate b config s).calls)
    (pre post : List Event) (p2 z2 name : GoString) (pools : List GoString)
    (hread : (doUpdate b config s).calls =
      pre ++ .instanceGroupManagersGet p2 z2 name (.ok pools) :: post) :
    ((∃ resp rest, post = .setTargetPools p2 z2 name (pools ++ [t]) resp :: rest) ↔
      t ∉ pools) ∧
    (t ∈ pools → (post = [] ∧ (doUpdate b config s).flow = .done) ∨
      ∃ n r2 rest, post = .instanceGroupManagersGet p2 z2 n r2 :: rest) ∧
    (∀ pre3 post3 p3 z3 n3 tps resp,
      (doUpdate b config s).calls = pre3 ++ .setTargetPools p3 z3 n3 tps resp :: post3 →
      ∃ pre4 pools3, pre3 = pre4 ++ [.instanceGroupManagersGet p3 z3 n3 (.ok pools3)] ∧
        t ∉ pools3 ∧ tps = pools3 ++ [t]) ∧
    (∃ nodePools before g later,
      (b.nodePoolsList config.projectID config.zone config.clusterID s).2 = .ok nodePools ∧
      groupsInOrder nodePools = before ++ g :: later ∧
      before.length = (pre.filterMap Event.readName).length ∧
      (groupLoop b config t before
        (b.targetPoolsGet config.projectID config.region config.targetPoolID
          (b.nodePoolsList config.projectID config.zone config.clusterID s).1).1).flow = .done ∧
      pre =
        .nodePoolsList config.projectID config.zone config.clusterID (.ok nodePools) ::
        .targetPoolsGet config.projectID config.region config.targetPoolID (.ok t) ::
        (groupLoop b config t before
          (b.targetPoolsGet config.projectID config.region config.targetPoolID
            (b.nodePoolsList config.projectID config.zone config.clusterID s).1).1).calls ∧
      name = shortName g.2 ∧
      (b.instanceGroupManagersGet config.projectID config.zone (shortName g.2)
        (groupLoop b config t before
          (b.targetPoolsGet config.projectID config.region config.targetPoolID
            (b.nodePoolsList config.projectID config.zone config.clusterID s).1).1).state).2 =
        .ok pools ∧
      (t ∈ pools →
        (doUpdate b config s).flow =
          (groupLoop b config t later
            (b.instanceGroupManagersGet config.projectID config.zone (shortName g.2)
              (groupLoop b config t before
                (b.targetPoolsGet config.projectID config.region config.targetPoolID
                  (b.nodePoolsList config.projectID config.zone config.clusterID s).1).1).state).1).flow ∧
        (doUpdate b config s).state =
          (groupLoop b config t later
            (b.instanceGroupManagersGet config.projectID config.zone (shortName g.2)
              (groupLoop b config t before
                (b.targetPoolsGet config.projectID config.region config.targetPoolID
                  (b.nodePoolsList config.projectID config.zone config.clusterID s).1).1).state).1).state ∧
        post =
          (groupLoop b config t later
            (b.instanceGroupManagersGet config.projectID config.zone (shortName g.2)
              (groupLoop b config t before
                (b.targetPoolsGet config.projectID config.region config.targetPoolID
                  (b.nodePoolsList config.projectID config.zone config.clusterID s).1).1).state).1).calls ∧
        (later = [] → post = [] ∧ (doUpdate b config s).flow = .done) ∧
        (∀ g2 later2, later = g2 :: later2 →
          ∃ r2 rest, post = .instanceGroupManagersGet p2 z2 (shortName g2.2) r2 :: rest))) := by
  obtain ⟨nps, cs, hcalls, hg⟩ := doUpdate_group_calls b config s t p r tp ht
  have hread0 := hread
  rw [hcalls] at hread
  obtain ⟨pre2, hpre2, hcs⟩ := split_after_discovery _ _ _ cs pre post hread
    (fun h => Event.noConfusion h) (fun h => Event.noConfusion h)
  obtain ⟨h1, h2, h3, h4⟩ := hg.after_read pre2 post p2 z2 name pools hcs
  subst h1 h2
  refine ⟨⟨?_, fun hn => ?_⟩, h3, ?_, ?_⟩
  · rintro ⟨resp, rest, hpost⟩ hin
    rcases h3 hin with ⟨h5, _⟩ | ⟨n, r2, rest2, h5⟩
    · rw [h5] at hpost; cases hpost
    · rw [h5] at hpost; cases hpost
  · obtain ⟨resp, rest, h5, _⟩ := h4 hn
    exact ⟨resp, rest, h5⟩
  · intro pre3 post3 p3 z3 n3 tps resp hw
    rw [hcalls] at hw
    obtain ⟨pre4, hpre, hcs2⟩ := split_after_discovery _ _ _ cs pre3 post3 hw
      (fun h => Event.noConfusion h) (fun h => Event.noConfusion h)
    obtain ⟨pre5, pools3, h6, h7, h8⟩ := hg.before_write pre4 post3 p3 z3 n3 tps resp hcs2
    refine ⟨.nodePoolsList config.projectID config.zone config.clusterID (.ok nps) ::
      .targetPoolsGet config.projectID config.region config.targetPoolID (.ok t) :: pre5,
      pools3, ?_, h7, h8⟩
    rw [hpre, h6]
    rfl
  · obtain ⟨nodePools, hc, hk, hl, htb⟩ := doUpdate_resolved b config s t p r tp ht
    obtain ⟨d1, d2, d3⟩ := doUpdate_discovered b config s nodePools t hc hk hl htb
    rw [d3] at hread0
    obtain ⟨pre3, hpre3, hgc⟩ := split_after_discovery _ _ _ _ pre post hread0
      (fun h => Event.noConfusion h) (fun h => Event.noConfusion h)
    obtain ⟨before, g, later, e1, e2, e3, e4, e5, e6⟩ :=
      groupLoop_at_read b config t _ _ pre3 post _ _ name pools hgc
    have hreads := groupLoop_reads b config t before _ e2
    refine ⟨nodePools, before, g, later, hl, e1, ?_, e2, ?_, e4, e5, fun hin => ?_⟩
    · rw [hpre3, e3]
      simp only [List.filterMap_cons, Event.readName, hreads, List.length_map]
    · rw [hpre3, e3]
    · obtain ⟨f1, f2, f3⟩ := e6 hin
      refine ⟨d1.trans f1, d2.trans f2, f3, fun hlater => ?_, fun g2 later2 hlater => ?_⟩
      · rw [hlater] at f1 f3
        exact ⟨f3, d1.trans f1⟩
      · rw [hlater] at f3
        obtain ⟨r2, rest, hh⟩ := groupLoop_head_read b config t g2 later2
          (b.instanceGroupManagersGet config.projectID config.zone (shortName g.2)
            (groupLoop b config t before
              (b.targetPoolsGet config.projectID config.region config.targetPoolID
                (b.nodePoolsList config.projectID config.zone config.clusterID s).1).1).state).1
        exact ⟨r2, rest, f3.trans hh⟩

/-- Witness for C2, at a converged group: in the example store "g2" lists
"poolX" already; no write follows its read, and the next call is the read of
"g3", the next group of the topology. -/
theorem doUpdate_write_iff_absent_witness :
    (¬ ∃ resp rest,
      (doUpdate (storeBackend exampleNodePools (utf8 "poolX") (fun _ _ => cleanOperation))
        exampleConfig exampleStore).calls.drop 5 =
      .setTargetPools (utf8 "proj") (utf8 "us-central1-a") (utf8 "g2")
        ([utf8 "poolA", utf8 "poolX"] ++ [utf8 "poolX"]) resp :: rest) ∧
    (∃ r2 rest,
      (doUpdate (storeBackend exampleNodePools (utf8 "poolX") (fun _ _ => cleanOperation))
        exampleConfig exampleStore).calls.drop 5 =
      .instanceGroupManagersGet (utf8 "proj") (utf8 "us-central1-a") (utf8 "g3") r2 :: rest) :=
  have h := doUpdate_write_iff_absent
    (storeBackend exampleNodePools (utf8 "poolX") (fun _ _ => cleanOperation))
    exampleConfig exampleStore (utf8 "poolX")
    (utf8 "proj") (utf8 "us-central1") (utf8 "pool") (by decide)
    ((doUpdate (storeBackend exampleNodePools (utf8 "poolX") (fun _ _ => cleanOperation))
      exampleConfig exampleStore).calls.take 4)
    ((doUpdate (storeBackend exampleNodePools (utf8 "poolX") (fun _ _ => cleanOperation))
      exampleConfig exampleStore).calls.drop 5)
    (utf8 "proj") (utf8 "us-central1-a") (utf8 "g2") [utf8 "poolA", utf8 "poolX"] (by decide)
  ⟨fun hw => (h.1.mp hw) (by decide), by
    obtain ⟨nps, before, g, later, hl, hg, hlen, _, _, _, _, hcont⟩ := h.2.2.2
    have hl2 : Resp.ok exampleNodePools = Resp.ok nps := hl
    have hn : nps = exampleNodePools := (Resp.ok.inj hl2).symm
    subst hn
    obtain ⟨_, _, hlater⟩ := split_at_length _ before later g _ hg hlen
    have hl3 : later = [(utf8 "pool-2", utf8 "zones/a/g3")] := hlater.trans (by decide)
    obtain ⟨r2, rest, hpost⟩ := (hcont (by decide)).2.2.2.2 _ _ hl3
    have hs : shortName (utf8 "pool-2", utf8 "zones/a/g3").2 = utf8 "g3" := by decide
    rw [hs] at hpost
    exact ⟨r2, rest, hpost⟩⟩


/-! ## Lemmas for the response payloads -/

theorem Run.SameUpToPayload.andThen {σ : Type} {r rc : Run σ} {k kc : σ → Run σ}
    (h : r.SameUpToPayload rc) (hk : ∀ s, (k s).SameUpToPayload (kc s)) :
    (r.andThen k).SameUpToPayload (rc.andThen kc) := by
  obtain ⟨h1, h2, h3, h4⟩ := h
  by_cases hf : r.flow = .done
  · rw [Run.andThen_done r k hf, Run.andThen_done rc kc (h1.trans hf), h2]
    obtain ⟨k1, k2, k3, k4⟩ := hk r.state
    refine ⟨k1, k2, ?_, ?_⟩
    · simp only [List.map_append, h3, k3]
    · simp only [List.filter_append, h4, k4]
  · rw [Run.andThen_stop r k hf, Run.andThen_stop rc kc (by rw [h1]; exact hf)]
    exact ⟨h1, h2, h3, h4⟩

theorem logOperation_filter (fields : List (String × GoString)) (op : Operation) :
    (logOperation fields op).filter (fun l => !l.isPayloadLine) = [] := by
  unfold logOperation
  rcases op with ⟨_ | errors, ws⟩ <;> by_cases hw : ws.length > 0 <;>
    simp [hw, LogEntry.isPayloadLine]

theorem processInstanceGroup_clean {σ : Type} (b : Backend σ) (config : configData)
    (t n u : GoString) (s : σ) :
    (processInstanceGroup b config t n u s).SameUpToPayload
      (processInstanceGroup b.withCleanResponses config t n u s) := by
  unfold processInstanceGroup Run.SameUpToPayload
  rw [instanceGroupName_shortName]
  simp only [Backend.withCleanResponses]
  rcases hg : (b.instanceGroupManagersGet config.projectID config.zone (shortName u) s).2
    with pools | e
  · by_cases hp : hasPool t pools = true
    · simp [hp, Event.erasePayload, LogEntry.isPayloadLine]
    · rcases hs : (b.setTargetPools config.projectID config.zone (shortName u) (pools ++ [t])
        (b.instanceGroupManagersGet config.projectID config.zone (shortName u) s).1).2
        with op | e
      · have hl := logOperation_filter [("nodePool", n), ("instanceGroup", shortName u)] op
        have hcl : logOperation [("nodePool", n), ("instanceGroup", shortName u)]
            cleanOperation = [] := rfl
        simp [hp, hs, Event.erasePayload, LogEntry.isPayloadLine, hcl]
        simpa [LogEntry.isPayloadLine] using hl
      · simp [hp, hs, Event.erasePayload, LogEntry.isPayloadLine]
  · simp [Event.erasePayload, LogEntry.isPayloadLine]

theorem groupLoop_clean {σ : Type} (b : Backend σ) (config : configData)
    (t : GoString) (gs : List (GoString × GoString)) (s : σ) :
    (groupLoop b config t gs s).SameUpToPayload
      (groupLoop b.withCleanResponses config t gs s) := by
  induction gs generalizing s with
  | nil => exact ⟨rfl, rfl, rfl, rfl⟩
  | cons g rest ih =>
    simp only [groupLoop]
    exact (processInstanceGroup_clean b config t g.1 g.2 s).andThen ih

/-- C9 (write-response payloads do not affect control flow).  For every control
plane, compare a cycle with the cycle over the same control plane whose
successful write responses carry no error payload and no warnings: the two end
the same way (in particular a payload never turns `return nil` into an error),
leave the same state, and issue the same calls with the same arguments in the
same order; their logs differ only by the lines that report a payload. -/
theorem doUpdate_payload_no_control_flow {σ : Type} (b : Backend σ) (config : configData)
    (s : σ) :
    (doUpdate b.withCleanResponses config s).flow = (doUpdate b config s).flow ∧
    (doUpdate b.withCleanResponses config s).state = (doUpdate b config s).state ∧
    (doUpdate b.withCleanResponses config s).calls =
      (doUpdate b config s).calls.map Event.erasePayload ∧
    (doUpdate b.withCleanResponses config s).log =
      (doUpdate b config s).log.filter (fun l => !l.isPayloadLine) := by
  unfold doUpdate
  simp only [nodePoolLoop_eq]
  have hb1 : b.withCleanResponses.containerNew = b.containerNew := rfl
  have hb2 : b.withCleanResponses.computeNew = b.computeNew := rfl
  have hb3 : b.withCleanResponses.nodePoolsList = b.nodePoolsList := rfl
  have hb4 : b.withCleanResponses.targetPoolsGet = b.targetPoolsGet := rfl
  rw [hb1, hb2, hb3, hb4]
  rcases b.containerNew with _ | e
  · rcases b.computeNew with _ | e
    · rcases (b.nodePoolsList config.projectID config.zone config.clusterID s).2
        with nodePools | e
      · rcases hp : (b.targetPoolsGet config.projectID config.region config.targetPoolID
          (b.nodePoolsList config.projectID config.zone config.clusterID s).1).2 with t | e
        · obtain ⟨h1, h2, h3, h4⟩ := groupLoop_clean b config t (groupsInOrder nodePools)
            (b.targetPoolsGet config.projectID config.region config.targetPoolID
              (b.nodePoolsList config.projectID config.zone config.clusterID s).1).1
          simp [h1, h2, h3, h4, Event.erasePayload, LogEntry.isPayloadLine]
        · simp [Event.erasePayload, LogEntry.isPayloadLine]
      · simp [Event.erasePayload, LogEntry.isPayloadLine]
    · simp [LogEntry.isPayloadLine]
  · simp [LogEntry.isPayloadLine]

/-! ## Lemmas for the stored membership -/

theorem storeBackend_step (nodePools : List NodePool) (t : GoString)
    (response : GoString → List GoString → Operation) (config : configData)
    (n u : GoString) (s : Store) :
    (processInstanceGroup (storeBackend nodePools t response) config t n u s).flow = .done ∧
    t ∈ (processInstanceGroup (storeBackend nodePools t response) config t n u s).state
      (config.projectID, config.zone, shortName u) ∧
    (∀ k, t ∈ s k →
      t ∈ (processInstanceGroup (storeBackend nodePools t response) config t n u s).state k) ∧
    (t ∈ s (config.projectID, config.zone, shortName u) →
      (processInstanceGroup (storeBackend nodePools t response) config t n u s).state = s ∧
      ∀ ev ∈ (processInstanceGroup (storeBackend nodePools t response) config t n u s).calls,
        ev.isSetTargetPools = false) := by
  have hget : ∀ p z name (s : Store),
      (storeBackend nodePools t response).instanceGroupManagersGet p z name s =
        (s, .ok (s (p, z, name))) := fun _ _ _ _ => rfl
  have hset : ∀ p z name pools (s : Store),
      (storeBackend nodePools t response).setTargetPools p z name pools s =
        (Function.update s (p, z, name) pools, .ok (response name pools)) :=
    fun _ _ _ _ _ => rfl
  rcases processInstanceGroup_cases (storeBackend nodePools t response) config t n u s with
    ⟨e, hr, _, _, _⟩ | ⟨pools, hr, hm, hf, hst, hcl⟩ | ⟨pools, e, _, _, hw, _, _, _⟩ |
    ⟨pools, op, hr, hm, _, hf, hst, hcl⟩
  · simp [hget] at hr
  · simp only [hget, Resp.ok.injEq] at hr hst
    subst hr
    rw [hf, hst, hcl]
    refine ⟨rfl, hm, fun k hk => hk, fun _ => ⟨rfl, ?_⟩⟩
    intro ev hev
    simp only [List.mem_singleton] at hev
    subst hev
    rfl
  · simp [hset] at hw
  · simp only [hget, hset, Resp.ok.injEq] at hr hst
    subst hr
    rw [hf, hst]
    refine ⟨rfl, by simp, fun k hk => ?_, fun h => absurd h hm⟩
    by_cases hkey : k = (config.projectID, config.zone, shortName u)
    · subst hkey; simp
    · rw [Function.update_noteq hkey]; exact hk

theorem storeBackend_loop (nodePools : List NodePool) (t : GoString)
    (response : GoString → List GoString → Operation) (config : configData)
    (gs : List (GoString × GoString)) (s : Store) :
    (groupLoop (storeBackend nodePools t response) config t gs s).flow = .done ∧
    (∀ k, t ∈ s k → t ∈ (groupLoop (storeBackend nodePools t response) config t gs s).state k) ∧
    (∀ g ∈ gs, t ∈ (groupLoop (storeBackend nodePools t response) config t gs s).state
      (config.projectID, config.zone, shortName g.2)) := by
  induction gs generalizing s with
  | nil => exact ⟨rfl, fun k hk => hk, fun g hg => absurd hg (List.not_mem_nil g)⟩
  | cons g rest ih =>
    obtain ⟨hf, hkey, hmono, _⟩ := storeBackend_step nodePools t response config g.1 g.2 s
    obtain ⟨ih1, ih2, ih3⟩ :=
      ih (processInstanceGroup (storeBackend nodePools t response) config t g.1 g.2 s).state
    simp only [groupLoop]
    rw [Run.andThen_done _ _ hf]
    refine ⟨ih1, fun k hk => ih2 k (hmono k hk), fun g2 hg2 => ?_⟩
    rcases List.mem_cons.mp hg2 with h | h
    · subst h; exact ih2 _ hkey
    · exact ih3 g2 h

theorem storeBackend_converged (nodePools : List NodePool) (t : GoString)
    (response : GoString → List GoString → Operation) (config : configData)
    (gs : List (GoString × GoString)) (s : Store)
    (h : ∀ g ∈ gs, t ∈ s (config.projectID, config.zone, shortName g.2)) :
    (groupLoop (storeBackend nodePools t response) config t gs s).state = s ∧
    ∀ ev ∈ (groupLoop (storeBackend nodePools t response) config t gs s).calls,
      ev.isSetTargetPools = false := by
  induction gs generalizing s with
  | nil => exact ⟨rfl, fun ev hev => absurd hev (List.not_mem_nil ev)⟩
  | cons g rest ih =>
    obtain ⟨hf, _, _, hsame⟩ := storeBackend_step nodePools t response config g.1 g.2 s
    obtain ⟨hst, hcl⟩ := hsame (h g (List.mem_cons_self g rest))
    simp only [groupLoop]
    rw [Run.andThen_done _ _ hf, hst]
    obtain ⟨ih1, ih2⟩ := ih s (fun g2 hg2 => h g2 (List.mem_cons_of_mem g hg2))
    refine ⟨ih1, fun ev hev => ?_⟩
    rcases List.mem_append.mp hev with h1 | h1
    · exact hcl ev h1
    · exact ih2 ev h1

theorem storeBackend_doUpdate (nodePools : List NodePool) (t : GoString)
    (response : GoString → List GoString → Operation) (config : configData) (s : Store) :
    (doUpdate (storeBackend nodePools t response) config s).flow =
      (groupLoop (storeBackend nodePools t response) config t (groupsInOrder nodePools) s).flow ∧
    (doUpdate (storeBackend nodePools t response) config s).state =
      (groupLoop (storeBackend nodePools t response) config t (groupsInOrder nodePools) s).state ∧
    (doUpdate (storeBackend nodePools t response) config s).calls =
      [.nodePoolsList config.projectID config.zone config.clusterID (.ok nodePools),
       .targetPoolsGet config.projectID config.region config.targetPoolID (.ok t)] ++
      (groupLoop (storeBackend nodePools t response) config t (groupsInOrder nodePools) s).calls :=
  doUpdate_discovered (storeBackend nodePools t response) config s nodePools t rfl rfl rfl rfl

theorem mem_groupsInOrder (nodePools : List NodePool) (nodePool : NodePool) (u : GoString)
    (hnp : nodePool ∈ nodePools) (hu : u ∈ nodePool.instanceGroupUrls) :
    (nodePool.name, u) ∈ groupsInOrder nodePools := by
  unfold groupsInOrder
  rw [List.mem_flatMap]
  exact ⟨nodePool, hnp, List.mem_map.mpr ⟨u, hu, rfl⟩⟩

/-- C3 (idempotence of the cycle).  Over a control plane that is changed only
by the writes of the cycle and whose calls all succeed, for every topology
(repeated groups and shared short names included), every target pool and every
initial membership: the first cycle returns nil, and the cycle run right after
it from the state the first one left returns nil, issues no `SetTargetPools`
call and leaves the state as it is. -/
theorem doUpdate_second_run_no_writes (nodePools : List NodePool) (t : GoString)
    (response : GoString → List GoString → Operation) (config : configData) (s : Store) :
    (doUpdate (storeBackend nodePools t response) config s).flow = .done ∧
    (doUpdate (storeBackend nodePools t response) config
      (doUpdate (storeBackend nodePools t response) config s).state).flow = .done ∧
    (∀ ev ∈ (doUpdate (storeBackend nodePools t response) config
      (doUpdate (storeBackend nodePools t response) config s).state).calls,
      ev.isSetTargetPools = false) ∧
    (doUpdate (storeBackend nodePools t response) config
      (doUpdate (storeBackend nodePools t response) config s).state).state =
      (doUpdate (storeBackend nodePools t response) config s).state := by
  obtain ⟨a1, a2, _⟩ := storeBackend_doUpdate nodePools t response config s
  obtain ⟨b1, b2, b3⟩ := storeBackend_doUpdate nodePools t response config
    (doUpdate (storeBackend nodePools t response) config s).state
  obtain ⟨l1, _, l3⟩ := storeBackend_loop nodePools t response config (groupsInOrder nodePools) s
  obtain ⟨m1, _, _⟩ := storeBackend_loop nodePools t response config (groupsInOrder nodePools)
    (doUpdate (storeBackend nodePools t response) config s).state
  rw [← a2] at l3
  obtain ⟨c1, c2⟩ := storeBackend_converged nodePools t response config
    (groupsInOrder nodePools) (doUpdate (storeBackend nodePools t response) config s).state l3
  refine ⟨a1.trans l1, b1.trans m1, fun ev hev => ?_, b2.trans c1⟩
  rw [b3] at hev
  rcases List.mem_append.mp hev with h | h
  · simp only [List.mem_cons, List.mem_singleton, List.not_mem_nil, or_false] at h
    rcases h with h | h <;> subst h <;> rfl
  · exact c2 ev h

/-- C4 (self-healing in one cycle).  Over a control plane that is changed only
by the writes of the cycle and whose calls all succeed, for every topology,
every target pool `t` and every initial membership (so also one from which `t`
was removed out-of-band): after one cycle, which returns nil, the stored list of
the group addressed by any URL of any node pool contains `t`. -/
theorem doUpdate_heals_in_one_cycle (nodePools : List NodePool) (t : GoString)
    (response : GoString → List GoString → Operation) (config : configData) (s : Store)
    (nodePool : NodePool) (hnp : nodePool ∈ nodePools)
    (u : GoString) (hu : u ∈ nodePool.instanceGroupUrls) :
    (doUpdate (storeBackend nodePools t response) config s).flow = .done ∧
    t ∈ (doUpdate (storeBackend nodePools t response) config s).state
      (config.projectID, config.zone, shortName u) := by
  obtain ⟨a1, a2, _⟩ := storeBackend_doUpdate nodePools t response config s
  obtain ⟨l1, _, l3⟩ := storeBackend_loop nodePools t response config (groupsInOrder nodePools) s
  refine ⟨a1.trans l1, ?_⟩
  rw [a2]
  exact l3 _ (mem_groupsInOrder nodePools nodePool u hnp hu)

/-- Witness for C4: the third group of the example starts with an empty list. -/
theorem doUpdate_heals_in_one_cycle_witness :
    (doUpdate (storeBackend exampleNodePools (utf8 "poolX") (fun _ _ => cleanOperation))
      exampleConfig exampleStore).flow = .done ∧
    utf8 "poolX" ∈ (doUpdate (storeBackend exampleNodePools (utf8 "poolX")
      (fun _ _ => cleanOperation)) exampleConfig exampleStore).state
      (exampleConfig.projectID, exampleConfig.zone, shortName (utf8 "zones/a/g3")) :=
  doUpdate_heals_in_one_cycle exampleNodePools (utf8 "poolX") (fun _ _ => cleanOperation)
    exampleConfig exampleStore
    { name := utf8 "pool-2", instanceGroupUrls := [utf8 "zones/a/g3"] } (by decide)
    (utf8 "zones/a/g3") (by decide)

/-- C8 (short-name extraction).  For every instance-group URL `u` the slice of
line 60 does not panic and yields a name without "/"; when `u` contains a "/"
then `u` is some `p`, a "/" and the name (so the name is what follows the last
"/"); when `u` contains none the name is `u`; a `u` that ends in "/" yields the
empty name; and every call the loop body issues for `u`, read or write, is
addressed to this one name. -/
theorem instanceGroupName_last_segment (u : GoString) :
    ∃ name, instanceGroupName u = .ok name ∧ slash ∉ name ∧
      (slash ∈ u → ∃ p, u = p ++ slash :: name) ∧
      (slash ∉ u → name = u) ∧
      (∀ p, u = p ++ [slash] → name = []) ∧
      (∀ (σ : Type) (b : Backend σ) (config : configData) (t n : GoString) (s : σ),
        ∀ ev ∈ (processInstanceGroup b config t n u s).calls,
          (∃ r, ev = .instanceGroupManagersGet config.projectID config.zone name r) ∨
          (∃ tps r, ev = .setTargetPools config.projectID config.zone name tps r)) := by
  obtain ⟨h1, h2, h3⟩ := shortName_spec u
  refine ⟨shortName u, instanceGroupName_shortName u, h1, h2, h3, ?_, ?_⟩
  · intro p hp
    obtain ⟨q, hq⟩ := h2 (by rw [hp]; simp)
    have h := split_last_unique p q [] (shortName u) slash (List.not_mem_nil _) h1
      (by rw [← hq, hp])
    exact h.2.symm
  · intro σ b config t n s ev hev
    rcases processInstanceGroup_cases b config t n u s with
      ⟨e, _, _, _, hc⟩ | ⟨pools, _, _, _, _, hc⟩ | ⟨pools, e, _, _, _, _, _, hc⟩ |
      ⟨pools, op, _, _, _, _, _, hc⟩ <;> rw [hc] at hev <;>
      simp only [List.mem_cons, List.mem_singleton, List.not_mem_nil, or_false] at hev
    · exact Or.inl ⟨_, hev⟩
    · exact Or.inl ⟨_, hev⟩
    · rcases hev with h | h
      · exact Or.inl ⟨_, h⟩
      · exact Or.inr ⟨_, _, h⟩
    · rcases hev with h | h
      · exact Or.inl ⟨_, h⟩
      · exact Or.inr ⟨_, _, h⟩

/-- Examples of the short name: a full URL, a string without "/", and one that
ends in "/". -/
theorem shortName_examples :
    instanceGroupName (utf8 "https://www.googleapis.com/compute/v1/projects/p/zones/z/instanceGroupManagers/gke-c-pool-1-grp") =
      .ok (utf8 "gke-c-pool-1-grp") ∧
    instanceGroupName (utf8 "gke-c-pool-1-grp") = .ok (utf8 "gke-c-pool-1-grp") ∧
    instanceGroupName (utf8 "zones/z/") = .ok [] :=
  ⟨by decide, by decide, by decide⟩

/-- C7 (region inference).  When no region is supplied and the zone contains a
hyphen, the slice of line 141 does not panic and yields the part of the zone
before its last hyphen: the zone is that region, a hyphen, and a rest without
hyphen; with a project supplied, `main` goes on to its last two checks with the
region set to it and nothing else changed.  When a non-empty region is
supplied, whatever the zone, a configuration that reaches `run` is the one
supplied, and it does reach `run` when the four required flags are non-empty.
The zone "us-central1-a" gives the region "us-central1". -/
theorem main_region_inference (config : configData) :
    (config.region = [] → hyphen ∈ config.zone →
      ∃ region s, inferRegion config.zone = .ok region ∧
        config.zone = region ++ hyphen :: s ∧ hyphen ∉ s ∧
        (config.projectID ≠ [] → main config = mainTail { config with region := region }) ∧
        (config.projectID ≠ [] → config.clusterID ≠ [] → config.targetPoolID ≠ [] →
          main config = .run { config with region := region })) ∧
    (config.region ≠ [] → ∀ config2, main config = .run config2 → config2 = config) ∧
    (config.region ≠ [] → config.projectID ≠ [] → config.zone ≠ [] →
      config.clusterID ≠ [] → config.targetPoolID ≠ [] → main config = .run config) ∧
    inferRegion (utf8 "us-central1-a") = .ok (utf8 "us-central1") := by
  refine ⟨fun hr hh => ?_, fun hr config2 hrun => ?_, fun hr hp hz hc htp => ?_, by decide⟩
  · obtain ⟨region, s, h1, h2, h3⟩ := (inferRegion_spec config.zone).1 hh
    have hz : config.zone ≠ [] := fun h => by rw [h] at hh; exact absurd hh (List.not_mem_nil _)
    refine ⟨region, s, h1, h2, h3, fun hp => ?_, fun hp hc htp => ?_⟩
    · unfold main
      simp [hp, hz, hr, h1]
    · unfold main
      simp [hp, hz, hr, h1, mainTail, hc, htp]
  · unfold main mainTail at hrun
    simp only [hr, if_false] at hrun
    split at hrun
    · cases hrun
    · split at hrun
      · cases hrun
      · split at hrun
        · cases hrun
        · split at hrun
          · cases hrun
          · cases hrun; rfl
  · unfold main
    simp [hp, hz, hr, mainTail, hc, htp]

/-- Witness for C7: the zone "us-central1-a" without a region. -/
theorem main_region_inference_witness :
    main { exampleConfig with region := [] } = .run exampleConfig :=
  have h := (main_region_inference { exampleConfig with region := [] }).1 rfl (by decide)
  by
    obtain ⟨region, s, h1, _, _, _, h4⟩ := h
    have h5 : inferRegion (utf8 "us-central1-a") = .ok (utf8 "us-central1") := by decide
    have h6 : region = utf8 "us-central1" := by
      have h7 : Checked.ok region = Checked.ok (utf8 "us-central1") := h1.symm.trans h5
      exact Checked.ok.inj h7
    rw [h4 (by decide) (by decide) (by decide), h6]
    rfl

/-- C10 (unvalidated zone shape).  For every non-empty zone without a hyphen,
when no region is supplied: the last-hyphen index is `-1`, the slice of line 141
panics with that bound instead of producing a region, the zone check does not
reject the zone, and `run` is never called, so no cycle runs; with a non-empty
project the process stops with exactly this panic, also when cluster and target
pool are supplied. -/
theorem main_zone_without_hyphen_panics (config : configData)
    (hz : config.zone ≠ []) (hh : hyphen ∉ config.zone) (hr : config.region = []) :
    lastIndex config.zone hyphen = -1 ∧
    inferRegion config.zone = .panicked (.sliceBounds (-1) config.zone.length) ∧
    main config ≠ .fatal "Zone required" ∧
    (∀ config2, main config ≠ .run config2) ∧
    (config.projectID ≠ [] →
      main config = .panicked (.sliceBounds (-1) config.zone.length)) := by
  have h1 : lastIndex config.zone hyphen = -1 := by
    rcases lastIndex_spec config.zone hyphen with ⟨h, _⟩ | ⟨k, _, _, h2, _⟩
    · exact h
    · exact absurd (h2 ▸ List.mem_append_right _ (List.mem_cons_self _ _)) hh
  have h2 := (inferRegion_spec config.zone).2 hh
  have h3 : config.projectID ≠ [] →
      main config = .panicked (.sliceBounds (-1) config.zone.length) := by
    intro hp
    unfold main
    simp [hp, hz, hr, h2]
  refine ⟨h1, h2, ?_, ?_, h3⟩
  · by_cases hp : config.projectID = []
    · unfold main; simp [hp]
    · rw [h3 hp]; simp
  · intro config2
    by_cases hp : config.projectID = []
    · unfold main; simp [hp]
    · rw [h3 hp]; simp

/-- Witness for C10: the zone "local" with every other flag supplied. -/
theorem main_zone_without_hyphen_panics_witness :
    main { exampleConfig with region := [], zone := utf8 "local" } =
      .panicked (.sliceBounds (-1) 5) :=
  (main_zone_without_hyphen_panics { exampleConfig with region := [], zone := utf8 "local" }
    (by decide) (by decide) rfl).2.2.2.2 (by decide)

/-! ## The scenarios of the specification -/

/-- The first scenario: one node pool with the one group "g1" that lists
"poolA", and the target pool "poolX".  The first cycle issues one write, of
"poolA", "poolX" to "g1"; the second cycle issues the two discovery calls and
the read, and no write. -/
theorem scenario_one_write_then_none :
    (doUpdate (storeBackend [{ name := utf8 "pool-1", instanceGroupUrls := [utf8 "zones/a/g1"] }]
        (utf8 "poolX") (fun _ _ => cleanOperation)) exampleConfig exampleStore).calls.filter
        Event.isSetTargetPools =
      [.setTargetPools (utf8 "proj") (utf8 "us-central1-a") (utf8 "g1")
        [utf8 "poolA", utf8 "poolX"] (.ok cleanOperation)] ∧
    (doUpdate (storeBackend [{ name := utf8 "pool-1", instanceGroupUrls := [utf8 "zones/a/g1"] }]
        (utf8 "poolX") (fun _ _ => cleanOperation)) exampleConfig
      (doUpdate (storeBackend
        [{ name := utf8 "pool-1", instanceGroupUrls := [utf8 "zones/a/g1"] }]
        (utf8 "poolX") (fun _ _ => cleanOperation)) exampleConfig exampleStore).state).calls =
      [.nodePoolsList (utf8 "proj") (utf8 "us-central1-a") (utf8 "cluster")
        (.ok [{ name := utf8 "pool-1", instanceGroupUrls := [utf8 "zones/a/g1"] }]),
       .targetPoolsGet (utf8 "proj") (utf8 "us-central1") (utf8 "pool") (.ok (utf8 "poolX")),
       .instanceGroupManagersGet (utf8 "proj") (utf8 "us-central1-a") (utf8 "g1")
        (.ok [utf8 "poolA", utf8 "poolX"])] := by
  constructor <;> decide

/-- The second scenario: the group "g2" lists "poolA", "poolX" already; the
cycle reads it, writes nothing, and logs the debug line. -/
theorem scenario_already_member :
    (doUpdate (storeBackend [{ name := utf8 "pool-1", instanceGroupUrls := [utf8 "zones/a/g2"] }]
        (utf8 "poolX") (fun _ _ => cleanOperation)) exampleConfig
        exampleStore).calls.filter Event.isSetTargetPools = [] ∧
    { level := Level.debug,
      fields := [("nodePool", utf8 "pool-1"), ("instanceGroup", utf8 "g2")],
      msg := LogMsg.text "InstanceGroupManager already has TargetPool" } ∈
      (doUpdate (storeBackend
        [{ name := utf8 "pool-1", instanceGroupUrls := [utf8 "zones/a/g2"] }]
        (utf8 "poolX") (fun _ _ => cleanOperation)) exampleConfig exampleStore).log := by
  constructor <;> decide

end TargetPoolSync
